import Mathlib

/-!
CAMPUS_NEXUS admin scripts: a verification development

A shallow embedding of the two client-side scripts of the repository:

* `static/js/custom_jazzmin.js`: the light/dark theme toggle, persisted in
  `localStorage` and mirrored on the `data-theme` attribute of `document.body`;
* `static/js/fee_form.js`: the fee form script that shows or hides the
  subscription fields according to the value of the fee type selector and
  maintains a hint node.

The browser is modelled by explicit state passing.  For the theme script the
state is the attribute map of `document.body` together with `localStorage`.
For the fee form the state is the element tree of the document; an element is
referred to by its path in the tree, which plays the role of the JavaScript
object reference.

The browser interface is modelled as far as the scripts use it:

* lookups (`getElementById`, `querySelector`) return the first match in
  document order, and `closest` tests the element itself before its ancestors;
* a top-level element has no `parentElement`;
* the selectors are class selectors and the type selector `div`, matched case
  sensitively; the selector `".field-" + fieldName` is a class selector when
  the field name is an identifier (`isIdentifier`), which the four names of
  `SUB_FIELDS` are, and the model of `findFieldContainer` and `setVisible` is
  exact for such names only: for another string the browser may match other
  elements or throw a syntax error;
* the getter `value` of a `select` element is the value of its first selected
  option, and the value of an `option` element without `value` attribute is
  its text; the text of an element is kept with the element, so text inside
  child elements of an `option` is not counted, which matters only for an
  `option` that has child elements;
* a property assignment changes one property of one element;
* the assignment of `innerText` replaces the content of the element, child
  elements included, by the text;
* `appendChild` adds the new element after the last child.
-/

namespace CampusNexus

/-! ## Part I. Definitions -/

namespace CustomJazzmin

/-- String-keyed storage, used both for the attributes of an element and for
`localStorage`. -/
abbrev Store := List (String × String)

/-- Reading a key (`getAttribute`, `localStorage.getItem`): `none` is the
JavaScript `null` returned for a missing key. -/
def getItem (s : Store) (key : String) : Option String :=
  (s.find? (fun e => e.1 == key)).map (fun e => e.2)

/-- Writing a key (`setAttribute`, `localStorage.setItem`): an existing key is
overwritten in place, a new key is added. -/
def setItem : Store → String → String → Store
  | [], key, v => [(key, v)]
  | (k, w) :: rest, key, v =>
    if k == key then (k, v) :: rest else (k, w) :: setItem rest key v

/-- The part of the browser state the theme script reads and writes. -/
structure Page where
  /-- attributes of `document.body` -/
  body : Store
  /-- the origin's `localStorage` -/
  localStorage : Store
deriving DecidableEq

/-- JavaScript truthiness of a value that is a string or `null`: `null` and the
empty string are falsy. -/
def truthy : Option String → Bool
  | none => false
  | some v => v != ""

/-- The function `toggleTheme()`. -/
def toggleTheme (p : Page) : Page :=
  let currentTheme := getItem p.body "data-theme"
  if currentTheme = some "dark" then
    let p1 : Page := { p with body := setItem p.body "data-theme" "light" }
    { p1 with localStorage := setItem p1.localStorage "theme" "light" }
  else
    let p1 : Page := { p with body := setItem p.body "data-theme" "dark" }
    { p1 with localStorage := setItem p1.localStorage "theme" "dark" }

/-- The `DOMContentLoaded` listener of `custom_jazzmin.js`. -/
def onDOMContentLoaded (p : Page) : Page :=
  let savedTheme := getItem p.localStorage "theme"
  if truthy savedTheme then
    match savedTheme with
    | some v => { p with body := setItem p.body "data-theme" v }
    | none => p
  else p

/-- The `data-theme` attribute of the page root. -/
def theme (p : Page) : Option String := getItem p.body "data-theme"

/-- The persisted theme. -/
def savedTheme (p : Page) : Option String := getItem p.localStorage "theme"

/-- A page whose root carries the light theme. -/
def lightPage : Page := { body := [("class", "admin"), ("data-theme", "light")], localStorage := [] }

/-- A page whose store holds the dark theme. -/
def darkStoredPage : Page := { body := [], localStorage := [("theme", "dark")] }

/-- A page whose store holds the empty string under the key `theme`. -/
def emptyStoredPage : Page := { body := [], localStorage := [("theme", "")] }

end CustomJazzmin

namespace FeeForm

/-! ### The document -/

/-- The properties of one element that the script can observe or change. -/
structure Props where
  /-- local name of the element, lower case (`"div"`, `"input"`, ...) -/
  tag : String
  /-- the `id` attribute -/
  id : String
  /-- the class list -/
  classes : List String
  /-- the value set on the element itself: the `value` attribute of an
  `option` element, and for an element other than `select` and `option` what
  its `value` property returns; `none` when there is none (`undefined`) -/
  value : Option String
  /-- the selectedness of an `option` element -/
  selected : Bool
  /-- the `disabled` property -/
  disabled : Bool
  /-- the text of the element, child elements left out -/
  innerText : String
  /-- the inline style `style.display` -/
  display : String
  /-- the inline style `style.marginTop` -/
  marginTop : String
  /-- the inline style `style.opacity` -/
  opacity : String
  /-- the inline style `style.fontSize` -/
  fontSize : String
  /-- the inline style `style.lineHeight` -/
  lineHeight : String
deriving DecidableEq

/-- A sequence of sibling elements, each with its child elements, in document
order.  A document is the forest of its top-level elements (for a real page,
the single `html` element). -/
inductive Forest where
  | nil
  | cons (props : Props) (children : Forest) (siblings : Forest)
deriving DecidableEq

/-- An element reference: the child indices from the element up to the top
level, own index first.  `[2, 0]` is the third child of the first top-level
element. -/
abbrev Path := List Nat

/-- All elements below context `ctx`, numbered from `k`, in document order
(pre-order), each with its path. -/
def Forest.elems (ctx : Path) : Nat → Forest → List (Path × Props)
  | _, .nil => []
  | k, .cons a ch sib => (k :: ctx, a) :: (elems (k :: ctx) 0 ch ++ elems ctx (k + 1) sib)

/-- The elements of a document in document order. -/
def elements (d : Forest) : List (Path × Props) := d.elems [] 0

/-- The current properties of the element referred to by `p`. -/
def propsAt (d : Forest) (p : Path) : Option Props :=
  ((elements d).find? (fun e => e.1 == p)).map (fun e => e.2)

/-- The selectors the script uses: a class selector (`".row"`) or a type
selector (`"div"`).  The script builds `".field-" + fieldName` from field
names that are identifiers, which is a class selector. -/
inductive Selector where
  | cls (name : String)
  | tag (name : String)
deriving DecidableEq

/-- Whether an element matches a selector. -/
def Selector.test : Selector → Props → Bool
  | .cls c, a => a.classes.contains c
  | .tag t, a => a.tag == t

/-- The call `document.getElementById(id)`: the first element in document order with
that id. -/
def getElementById (d : Forest) (id : String) : Option Path :=
  ((elements d).find? (fun e => e.2.id == id)).map (fun e => e.1)

/-- The call `document.querySelector(sel)`: the first element in document order that
matches. -/
def querySelector (d : Forest) (sel : Selector) : Option Path :=
  ((elements d).find? (fun e => sel.test e.2)).map (fun e => e.1)

/-- The property `el.parentElement`: `null` for a top-level element. -/
def parentElement : Path → Option Path
  | _ :: k :: ctx => some (k :: ctx)
  | _ => none

/-- The method `el.closest(sel)`: the element itself or its nearest ancestor that
matches. -/
def closest (d : Forest) (sel : Selector) : Path → Option Path
  | [] => none
  | k :: ctx =>
    if (propsAt d (k :: ctx)).any sel.test then some (k :: ctx) else closest d sel ctx

/-- Apply `g` to the properties of every element, `g` being told the path. -/
def Forest.mapProps (g : Path → Props → Props) (ctx : Path) : Nat → Forest → Forest
  | _, .nil => .nil
  | k, .cons a ch sib =>
    .cons (g (k :: ctx) a) (mapProps g (k :: ctx) 0 ch) (mapProps g ctx (k + 1) sib)

/-- A property assignment `el.x = v` on the element `p`. -/
def update (d : Forest) (p : Path) (f : Props → Props) : Forest :=
  d.mapProps (fun q a => if q = p then f a else a) [] 0

/-- Add an element without children after the last sibling. -/
def Forest.snoc : Forest → Props → Forest
  | .nil, a => .cons a .nil .nil
  | .cons b ch sib, a => .cons b ch (snoc sib a)

/-- Append a new element as last child of the element `target`. -/
def Forest.appendAt (target : Path) (new : Props) (ctx : Path) : Nat → Forest → Forest
  | _, .nil => .nil
  | k, .cons a ch sib =>
    .cons a (if k :: ctx = target then ch.snoc new else appendAt target new (k :: ctx) 0 ch)
      (appendAt target new ctx (k + 1) sib)

/-- The call `parent.appendChild(child)` for a freshly created element. -/
def appendChild (d : Forest) (parent : Path) (child : Props) : Forest :=
  d.appendAt parent child [] 0

/-- Replace the content of the element `target` by the text `s`: its child
elements are removed. -/
def Forest.setText (target : Path) (s : String) (ctx : Path) : Nat → Forest → Forest
  | _, .nil => .nil
  | k, .cons a ch sib =>
    if k :: ctx = target then
      .cons { a with innerText := s } .nil (setText target s ctx (k + 1) sib)
    else
      .cons a (setText target s (k :: ctx) 0 ch) (setText target s ctx (k + 1) sib)

/-- The assignment `el.innerText = s`. -/
def setInnerText (d : Forest) (p : Path) (s : String) : Forest :=
  d.setText p s [] 0

/-- The call `document.createElement(tag)`. -/
def createElement (tag : String) : Props :=
  { tag := tag, id := "", classes := [], value := none, selected := false, disabled := false,
    innerText := "", display := "", marginTop := "", opacity := "", fontSize := "",
    lineHeight := "" }

/-- ASCII whitespace: tab, line feed, form feed, carriage return and space. -/
def isAsciiWhitespace (c : Char) : Bool :=
  c.toNat == 9 || c.toNat == 10 || c.toNat == 12 || c.toNat == 13 || c.toNat == 32

/-- The words of a text, the maximal runs free of ASCII whitespace; `w` is the
word being read, last character first. -/
def wordsOf : List Char → List Char → List (List Char)
  | [], w => if w.isEmpty then [] else [w.reverse]
  | c :: cs, w =>
    if isAsciiWhitespace c then
      (if w.isEmpty then wordsOf cs [] else w.reverse :: wordsOf cs [])
    else wordsOf cs (c :: w)

/-- Strip and collapse ASCII whitespace: the words separated by one space. -/
def stripAndCollapse (s : String) : String :=
  String.mk (List.intercalate [Char.ofNat 32] (wordsOf s.data []))

/-- The value of an `option` element: its `value` attribute, or else its text
with whitespace stripped and collapsed. -/
def optionValue (a : Props) : String :=
  a.value.getD (stripAndCollapse a.innerText)

/-- Whether the element `q` is a child of the element `p`, or a child of an
`optgroup` child of `p`. -/
def isOptionOf (d : Forest) (p : Path) : Path → Bool
  | _ :: r =>
    r == p ||
      (match r with
      | _ :: r2 => r2 == p && (propsAt d r).any (fun a => a.tag == "optgroup")
      | [] => false)
  | [] => false

/-- The list of options of the `select` element `p`, in document order. -/
def listOfOptions (d : Forest) (p : Path) : List (Path × Props) :=
  (elements d).filter (fun e => e.2.tag == "option" && isOptionOf d p e.1)

/-- The getter `el.value`: for a `select` element the value of the first
selected option of its list of options, or the empty string; for an `option`
element its value; for another element the value it carries. -/
def valueOf (d : Forest) (p : Path) : Option String :=
  match propsAt d p with
  | none => none
  | some a =>
    if a.tag = "select" then
      match (listOfOptions d p).find? (fun e => e.2.selected) with
      | some e => some (optionValue e.2)
      | none => some ""
    else if a.tag = "option" then some (optionValue a)
    else a.value

/-! ### The script `fee_form.js` -/

/-- The constant `SUB_FIELDS`. -/
def SUB_FIELDS : List String :=
  ["duration_months", "grace_days", "max_missed_cycles", "allow_installments"]

/-- The function `findFieldContainer(fieldName)`, for a field name that is an
identifier (`isIdentifier`): then `".field-" + fieldName` is the class
selector modelled here.  `null` is `none`. -/
def findFieldContainer (d : Forest) (fieldName : String) : Option Path :=
  let input := getElementById d ("id_" ++ fieldName)
  let byClass := querySelector d (.cls ("field-" ++ fieldName))
  match byClass with
  | some c => some c
  | none =>
    match input with
    | none => none
    | some i =>
      (((closest d (.cls "form-group") i).orElse fun _ => closest d (.cls "row") i).orElse
        fun _ => closest d (.tag "div") i).orElse fun _ => parentElement i

/-- The function `setVisible(fieldName, visible)`, for a field name that is an
identifier: then no call in the body throws, and the function returns the
page it leaves behind. -/
def setVisible (d : Forest) (fieldName : String) (visible : Bool) : Forest :=
  match findFieldContainer d fieldName with
  | none => d
  | some container =>
    let d1 := update d container
      (fun a => { a with display := if visible then "" else "none" })
    match getElementById d1 ("id_" ++ fieldName) with
    | some input => update d1 input (fun a => { a with disabled := !visible })
    | none => d1

/-- The function `setSubFieldsVisible(visible)`. -/
def setSubFieldsVisible (d : Forest) (visible : Bool) : Forest :=
  SUB_FIELDS.foldl (fun d f => setVisible d f visible) d

/-- The hint element as `ensureHint` builds it before appending it. -/
def hintElement : Props :=
  let hint := createElement "div"
  let hint := { hint with id := "fee_type_hint" }
  let hint := { hint with marginTop := "6px" }
  let hint := { hint with opacity := "0.85" }
  let hint := { hint with fontSize := "0.9rem" }
  { hint with lineHeight := "1.25rem" }

/-- The constant `feeTypeContainer` of `ensureHint`: the wrapper of class
`field-fee_type`, or else the form group around the input `id_fee_type`. -/
def feeTypeContainer (d : Forest) : Option Path :=
  (querySelector d (.cls "field-fee_type")).orElse fun _ =>
    (getElementById d "id_fee_type").bind fun i => closest d (.cls "form-group") i

/-- The function `ensureHint()`. -/
def ensureHint (d : Forest) : Forest :=
  match feeTypeContainer d with
  | none => d
  | some c =>
    if (getElementById d "fee_type_hint").isNone then appendChild d c hintElement else d

/-- The hint text in subscription mode. -/
def subscriptionMessage : String :=
  "Subscription selected: configure cycle, grace period, reminders and enforcement below."

/-- The hint text in membership mode. -/
def membershipMessage : String :=
  "Membership selected: subscription policy fields are hidden (not required)."

/-- The function `apply()`. -/
def apply (d : Forest) : Forest :=
  match getElementById d "id_fee_type" with
  | none => d
  | some feeType =>
    let isSubscription := valueOf d feeType == some "subscription"
    let d1 := setSubFieldsVisible d isSubscription
    match getElementById d1 "fee_type_hint" with
    | some hint =>
      setInnerText d1 hint (if isSubscription then subscriptionMessage else membershipMessage)
    | none => d1

/-- The `DOMContentLoaded` listener of `fee_form.js`.  The `change` listener it
attaches runs `apply`. -/
def onDOMContentLoaded (d : Forest) : Forest :=
  apply (ensureHint d)

/-- The user sets the fee type to `value`: in a `select` element the first
option of that value, if there is one, becomes the selected option; another
element receives the value. -/
def selectValue (d : Forest) (value : String) : Forest :=
  match getElementById d "id_fee_type" with
  | some feeType =>
    if (propsAt d feeType).any (fun a => a.tag == "select") then
      match (listOfOptions d feeType).find? (fun e => optionValue e.2 == value) with
      | some picked =>
        d.mapProps (fun q a =>
          if (listOfOptions d feeType).any (fun e => e.1 == q) then
            { a with selected := q == picked.1 }
          else a) [] 0
      | none => d
    else update d feeType (fun a => { a with value := some value })
  | none => d

/-- The operations of the script: its functions, the page-load event, and a
change event, fired after the user has picked `value` in the selector. -/
inductive Op where
  | setVisible (fieldName : String) (visible : Bool)
  | setSubFieldsVisible (visible : Bool)
  | ensureHint
  | apply
  | load
  | change (value : String)
deriving DecidableEq

/-- The effect of one operation on the page. -/
def Op.run : Op → Forest → Forest
  | .setVisible f v, d => FeeForm.setVisible d f v
  | .setSubFieldsVisible v, d => FeeForm.setSubFieldsVisible d v
  | .ensureHint, d => FeeForm.ensureHint d
  | .apply, d => FeeForm.apply d
  | .load, d => onDOMContentLoaded d
  | .change value, d => FeeForm.apply (selectValue d value)

/-- The page after a sequence of operations. -/
def runAll (ops : List Op) (d : Forest) : Forest :=
  ops.foldl (fun d op => op.run d) d

/-! ### Notions used in the statements -/

/-- The display value `setVisible` writes. -/
def displayFor (visible : Bool) : String := if visible then "" else "none"

/-- The text `apply` writes for a discriminator value. -/
def messageFor (value : Option String) : String :=
  if value = some "subscription" then subscriptionMessage else membershipMessage

/-- The text of the hint node, if there is one. -/
def hintText (d : Forest) : Option String :=
  (getElementById d "fee_type_hint").bind fun h => (propsAt d h).map fun a => a.innerText

/-- The number of elements with the id `fee_type_hint`. -/
def countHints (d : Forest) : Nat :=
  (elements d).countP (fun e => e.2.id == "fee_type_hint")

/-- The child elements of the element `target`. -/
def Forest.childrenAt (target : Path) (ctx : Path) : Nat → Forest → Option Forest
  | _, .nil => none
  | k, .cons _ ch sib =>
    if k :: ctx = target then some ch
    else (childrenAt target (k :: ctx) 0 ch).orElse fun _ => childrenAt target ctx (k + 1) sib

/-- The child elements of the element `p` of the document. -/
def childNodes (d : Forest) (p : Path) : Option Forest := d.childrenAt p [] 0

/-- Whether there is no element at all. -/
def Forest.isEmpty : Forest → Bool
  | .nil => true
  | .cons _ _ _ => false

/-- Every element with the id `fee_type_hint` has no child elements. -/
def Forest.hintsAreLeaves : Forest → Bool
  | .nil => true
  | .cons a ch sib =>
    (a.id != "fee_type_hint" || ch.isEmpty) && ch.hintsAreLeaves && sib.hintsAreLeaves

/-- Whether the dependent field `f` is in a coherent state: when both its
container and its input resolve, the input is enabled exactly when the
container is not hidden. -/
def fieldCoherent (d : Forest) (f : String) : Bool :=
  match findFieldContainer d f, getElementById d ("id_" ++ f) with
  | some c, some i =>
    match propsAt d c, propsAt d i with
    | some pc, some pi => (!pi.disabled) == (pc.display != "none")
    | _, _ => true
  | _, _ => true

/-- Every dependent field is in a coherent state. -/
def coherent (d : Forest) : Bool := SUB_FIELDS.all (fieldCoherent d)

/-- Whether an operation is a lone `setVisible` call. -/
def Op.isSetVisible : Op → Bool
  | .setVisible _ _ => true
  | _ => false

/-- The first result that exists, in the given order. -/
def firstExisting : List (Option Path) → Option Path
  | [] => none
  | some p :: _ => some p
  | none :: rest => firstExisting rest

/-- The nearest element matching `sel` among `i` itself and its ancestors,
nearest first: they are the non-empty tails of the path of `i`. -/
def nearestMatch (d : Forest) (sel : Selector) (i : Path) : Option Path :=
  i.tails.find? (fun r => (propsAt d r).any sel.test)

/-- The nearest ancestor of `i` matching `sel`, `i` itself left out. -/
def nearestAncestor (d : Forest) (sel : Selector) (i : Path) : Option Path :=
  nearestMatch d sel i.tail

/-- The container of a field as the specification words it: the element of class
`field-<f>`, or else nothing without input, or else the first that exists of
the input's nearest `.form-group` ancestor, nearest `.row` ancestor, nearest
`div` ancestor and parent. -/
def claimedContainer (d : Forest) (f : String) : Option Path :=
  match querySelector d (.cls ("field-" ++ f)) with
  | some c => some c
  | none =>
    match getElementById d ("id_" ++ f) with
    | none => none
    | some i =>
      firstExisting
        [nearestAncestor d (.cls "form-group") i, nearestAncestor d (.cls "row") i,
          nearestAncestor d (.tag "div") i, parentElement i]

/-- Whether a field name is an identifier: a letter or underscore followed by
letters, digits and underscores.  For such a name `".field-" + fieldName` is a
class selector. -/
def isIdentifier (f : String) : Bool :=
  match f.data with
  | [] => false
  | c :: cs =>
    (c.isAlpha || c.toNat == 95) && cs.all (fun x => x.isAlphanum || x.toNat == 95)

/-! ### Notions used in the proofs -/

/-- A change of properties that leaves tag, id and classes alone. -/
def Cosmetic (g : Path → Props → Props) : Prop :=
  ∀ q a, (g q a).tag = a.tag ∧ (g q a).id = a.id ∧ (g q a).classes = a.classes

/-- The combined effect of `setVisible` calls with one `visible`: containers in
`C` get the display value, inputs in `I` get the disabled flag. -/
def restyle (C I : Path → Bool) (visible : Bool) (q : Path) (a : Props) : Props :=
  { a with display := if C q then displayFor visible else a.display,
           disabled := if I q then !visible else a.disabled }

/-- Whether `q` is the container `findFieldContainer` resolves for `f`. -/
def isContainerOf (d : Forest) (f : String) (q : Path) : Bool :=
  findFieldContainer d f == some q

/-- Whether `q` is the input of `f` and the container of `f` resolves. -/
def isInputOf (d : Forest) (f : String) (q : Path) : Bool :=
  (findFieldContainer d f).isSome && getElementById d ("id_" ++ f) == some q

/-- Whether `q` is the resolved container of some dependent field. -/
def isSubContainer (d : Forest) (q : Path) : Bool :=
  SUB_FIELDS.any (fun f => isContainerOf d f q)

/-- Whether `q` is the input of some dependent field whose container resolves. -/
def isSubInput (d : Forest) (q : Path) : Bool :=
  SUB_FIELDS.any (fun f => isInputOf d f q)

/-- The combined effect of `apply` on the properties of the element `q` when
no child element is removed: the dependent fields are restyled and the hint
node receives its text. -/
def applyStyle (d : Forest) (isSubscription : Bool) (q : Path) (b : Props) : Props :=
  if getElementById d "fee_type_hint" = some q then
    { restyle (isSubContainer d) (isSubInput d) isSubscription q b with
      innerText := if isSubscription then subscriptionMessage else membershipMessage }
  else restyle (isSubContainer d) (isSubInput d) isSubscription q b

/-- The effect of the assignment `h.innerText = s` on one element of the
document: the element `h` receives the text, the elements inside `h` are
removed, every other element stays as it is. -/
def textStep (h : Path) (s : String) (e : Path × Props) : Option (Path × Props) :=
  if e.1 = h then some (e.1, { e.2 with innerText := s })
  else if h <:+ e.1 then none
  else some e

/-! ### Sample pages -/

/-- The fee type selector with its two options, the one of value `v` selected,
followed by the siblings `rest`. -/
def feeTypeSelect (v : String) (rest : Forest) : Forest :=
  .cons { createElement "select" with id := "id_fee_type" }
    (.cons { createElement "option" with
        value := some "membership", innerText := "Membership", selected := v == "membership" }
      .nil
    (.cons { createElement "option" with
        value := some "subscription", innerText := "Subscription",
        selected := v == "subscription" }
      .nil .nil))
    rest

/-- One dependent field inside its own wrapper. -/
def fieldRow (name : String) (rest : Forest) : Forest :=
  .cons { createElement "div" with classes := ["form-group", "field-" ++ name] }
    (.cons { createElement "input" with id := "id_" ++ name } .nil .nil)
    rest

/-- The fee form as the admin renders it: the selector and the four dependent
fields, each in its own wrapper, and the hint node after the selector.  `v` is
the value of the selector and `text` the text of the hint node. -/
def feeFormPage (v text : String) : Forest :=
  .cons (createElement "html")
    (.cons (createElement "body")
      (.cons { createElement "div" with classes := ["form-group", "field-fee_type"] }
        (feeTypeSelect v (.cons { hintElement with innerText := text } .nil .nil))
      (fieldRow "duration_months" (fieldRow "grace_days"
        (fieldRow "max_missed_cycles" (fieldRow "allow_installments" .nil)))))
    .nil)
  .nil

/-- A page with a fee type selector in its own wrapper and two of the dependent
fields sharing one form group; the other two dependent fields are missing.
`v` is the value of the selector. -/
def twoFieldPage (v : String) : Forest :=
  .cons (createElement "html")
    (.cons (createElement "body")
      (.cons { createElement "div" with classes := ["form-group", "field-fee_type"] }
        (feeTypeSelect v .nil)
      (.cons { createElement "div" with classes := ["form-group"] }
        (.cons { createElement "input" with id := "id_duration_months" } .nil
        (.cons { createElement "input" with id := "id_grace_days" } .nil .nil))
      .nil))
    .nil)
  .nil

/-- A page without any fee form markup. -/
def barePage : Forest :=
  .cons (createElement "html") (.cons (createElement "body") .nil .nil) .nil

/-- A page whose root element carries the id of a dependent field; the selector,
on "membership", and the other three inputs are in the body. -/
def rootInputPage : Forest :=
  .cons { createElement "html" with id := "id_duration_months" }
    (.cons (createElement "body")
      (feeTypeSelect "membership"
      (.cons { createElement "input" with id := "id_grace_days" } .nil
      (.cons { createElement "input" with id := "id_max_missed_cycles" } .nil
      (.cons { createElement "input" with id := "id_allow_installments" } .nil .nil))))
    .nil)
  .nil

/-- A page whose root element carries the id of a dependent field and which has
no markup for the other three dependent fields. -/
def rootOnlyPage : Forest :=
  .cons { createElement "html" with id := "id_duration_months" }
    (.cons (createElement "body") (feeTypeSelect "membership" .nil) .nil)
  .nil

/-- A page on which an element with the id of the hint node wraps the four
dependent inputs; the selector is on "membership". -/
def hintWrapsFieldsPage : Forest :=
  .cons (createElement "html")
    (.cons (createElement "body")
      (feeTypeSelect "membership"
      (.cons { createElement "div" with id := "fee_type_hint" }
        (.cons { createElement "input" with id := "id_duration_months" } .nil
        (.cons { createElement "input" with id := "id_grace_days" } .nil
        (.cons { createElement "input" with id := "id_max_missed_cycles" } .nil
        (.cons { createElement "input" with id := "id_allow_installments" } .nil .nil))))
      .nil))
    .nil)
  .nil

/-- A page on which the element with the id of the hint node is the selected
option of the selector; the option has no `value` attribute, so its value is
its text, "subscription". -/
def hintIsOptionPage : Forest :=
  .cons (createElement "html")
    (.cons (createElement "body")
      (.cons { createElement "select" with id := "id_fee_type" }
        (.cons { createElement "option" with innerText := "membership" } .nil
        (.cons { createElement "option" with
            id := "fee_type_hint", innerText := "subscription", selected := true }
          .nil .nil))
      .nil)
    .nil)
  .nil

/-- A page on which an element with the id of the hint node wraps the wrapper
of class `field-grace_days`, while the input `id_grace_days` is outside; the
selector is on "membership". -/
def hintWrapsWrapperPage : Forest :=
  .cons (createElement "html")
    (.cons (createElement "body")
      (feeTypeSelect "membership"
      (.cons { createElement "div" with id := "fee_type_hint" }
        (.cons { createElement "div" with classes := ["field-grace_days"] } .nil .nil)
      (.cons { createElement "input" with id := "id_grace_days" } .nil .nil)))
    .nil)
  .nil

/-- A page on which the input `id_grace_days` itself has the class `row`, inside
a `div` inside a `section` of class `row`. -/
def rowInputPage : Forest :=
  .cons (createElement "html")
    (.cons (createElement "body")
      (.cons { createElement "section" with classes := ["row"] }
        (.cons (createElement "div")
          (.cons { createElement "input" with id := "id_grace_days", classes := ["row"] }
            .nil .nil)
        .nil)
      .nil)
    .nil)
  .nil

end FeeForm

/-! ## Part II. The theme toggle -/

namespace CustomJazzmin

theorem getItem_setItem (s : Store) (key v : String) :
    getItem (setItem s key v) key = some v := by
  induction s with
  | nil => simp [setItem, getItem]
  | cons e rest ih =>
    obtain ⟨k, w⟩ := e
    by_cases hk : k = key
    · simp [setItem, getItem, hk]
    · have ih2 := ih
      simp only [getItem] at ih2
      simp [setItem, getItem, hk, ih2]

theorem theme_toggleTheme (p : Page) :
    theme (toggleTheme p) = some (if theme p = some "dark" then "light" else "dark") := by
  unfold toggleTheme theme
  by_cases h : getItem p.body "data-theme" = some "dark"
  · simp [h, getItem_setItem]
  · simp [h, getItem_setItem]

theorem savedTheme_toggleTheme (p : Page) :
    savedTheme (toggleTheme p) = some (if theme p = some "dark" then "light" else "dark") := by
  unfold toggleTheme theme savedTheme
  by_cases h : getItem p.body "data-theme" = some "dark"
  · simp [h, getItem_setItem]
  · simp [h, getItem_setItem]

/-- C1: `toggleTheme()` sets the root attribute and the persisted key to
"light" when the attribute was exactly "dark", and to "dark" for every other
prior attribute value; afterwards the persisted value equals the attribute and
is "light" or "dark". -/
theorem toggleTheme_sets_both (p : Page) :
    (theme p = some "dark" →
      theme (toggleTheme p) = some "light" ∧ savedTheme (toggleTheme p) = some "light") ∧
    (theme p ≠ some "dark" →
      theme (toggleTheme p) = some "dark" ∧ savedTheme (toggleTheme p) = some "dark") ∧
    savedTheme (toggleTheme p) = theme (toggleTheme p) ∧
    (theme (toggleTheme p) = some "light" ∨ theme (toggleTheme p) = some "dark") := by
  rw [theme_toggleTheme, savedTheme_toggleTheme]
  by_cases h : theme p = some "dark"
  · simp [h]
  · simp [h]

/-- Witness for C1: a toggle on a light page. -/
theorem toggleTheme_sets_both_witness :
    theme (toggleTheme lightPage) = some "dark" ∧ savedTheme (toggleTheme lightPage) = some "dark" :=
  (toggleTheme_sets_both lightPage).2.1 (by decide)

theorem theme_iterate_light (N : Nat) (p : Page) (h : theme p = some "light") :
    theme (toggleTheme^[N] p) = some (if N % 2 = 1 then "dark" else "light") := by
  induction N with
  | zero => simpa using h
  | succ n ih =>
    rw [Function.iterate_succ_apply', theme_toggleTheme, ih]
    rcases Nat.mod_two_eq_zero_or_one n with h0 | h1
    · have : (n + 1) % 2 = 1 := by omega
      simp [h0, this]
    · have : (n + 1) % 2 = 0 := by omega
      simp [h1, this]

theorem theme_iterate_mem (N : Nat) (p : Page)
    (h : theme p = some "light" ∨ theme p = some "dark") :
    theme (toggleTheme^[N] p) = some "light" ∨ theme (toggleTheme^[N] p) = some "dark" := by
  induction N with
  | zero => simpa using h
  | succ n ih =>
    rw [Function.iterate_succ_apply', theme_toggleTheme]
    rcases ih with h1 | h1 <;> simp [h1]

/-- C2: in a sequence of `toggleTheme()` calls that starts from "light" or
"dark", every call turns the attribute into its opposite; starting from
"light" the attribute after `N` calls is "dark" for odd `N` and "light" for
even `N`; two calls restore the attribute. -/
theorem toggleTheme_alternates (p : Page) (N : Nat)
    (h : theme p = some "light" ∨ theme p = some "dark") :
    ((theme (toggleTheme^[N] p) = some "light" ∧ theme (toggleTheme^[N + 1] p) = some "dark") ∨
      (theme (toggleTheme^[N] p) = some "dark" ∧ theme (toggleTheme^[N + 1] p) = some "light")) ∧
    (theme p = some "light" →
      theme (toggleTheme^[N] p) = some (if N % 2 = 1 then "dark" else "light")) ∧
    theme (toggleTheme (toggleTheme p)) = theme p := by
  refine ⟨?_, fun hl => theme_iterate_light N p hl, ?_⟩
  · rw [Function.iterate_succ_apply', theme_toggleTheme]
    rcases theme_iterate_mem N p h with h1 | h1 <;> simp [h1]
  · rw [theme_toggleTheme, theme_toggleTheme]
    rcases h with h1 | h1 <;> simp [h1]

/-- Witness for C2: three toggles from a light page. -/
theorem toggleTheme_alternates_witness :
    ((theme (toggleTheme^[3] lightPage) = some "light" ∧
        theme (toggleTheme^[3 + 1] lightPage) = some "dark") ∨
      (theme (toggleTheme^[3] lightPage) = some "dark" ∧
        theme (toggleTheme^[3 + 1] lightPage) = some "light")) ∧
    (theme lightPage = some "light" →
      theme (toggleTheme^[3] lightPage) = some (if 3 % 2 = 1 then "dark" else "light")) ∧
    theme (toggleTheme (toggleTheme lightPage)) = theme lightPage :=
  toggleTheme_alternates lightPage 3 (Or.inl (by decide))

/-- C3 as stated fails: with the empty string persisted the handler does not
write the attribute. -/
theorem onDOMContentLoaded_empty_string_not_restored :
    savedTheme emptyStoredPage = some "" ∧
    theme (onDOMContentLoaded emptyStoredPage) ≠ some "" ∧
    theme (onDOMContentLoaded emptyStoredPage) = none := by
  decide

/-- C3, amended: for every non-empty string `v` persisted under `theme`, the
page-load handler writes `v` onto the root attribute; with the empty string
persisted it changes nothing. -/
theorem onDOMContentLoaded_restores (p : Page) (v : String) (h : savedTheme p = some v) :
    (v ≠ "" → theme (onDOMContentLoaded p) = some v) ∧
    (v = "" → onDOMContentLoaded p = p) := by
  unfold savedTheme at h
  unfold onDOMContentLoaded theme
  constructor
  · intro hv
    simp [h, truthy, hv, getItem_setItem]
  · intro hv
    simp [h, truthy, hv]

/-- Witness for C3: the dark theme is persisted. -/
theorem onDOMContentLoaded_restores_witness :
    ("dark" ≠ "" → theme (onDOMContentLoaded darkStoredPage) = some "dark") ∧
    ("dark" = "" → onDOMContentLoaded darkStoredPage = darkStoredPage) :=
  onDOMContentLoaded_restores darkStoredPage "dark" (by decide)

/-- C4: when the key `theme` is absent from the store, the page-load handler
leaves the root attribute (set or unset) and the store as they were. -/
theorem onDOMContentLoaded_absent (p : Page) (h : savedTheme p = none) :
    onDOMContentLoaded p = p ∧
    theme (onDOMContentLoaded p) = theme p ∧
    (onDOMContentLoaded p).localStorage = p.localStorage := by
  unfold savedTheme at h
  have : onDOMContentLoaded p = p := by
    unfold onDOMContentLoaded
    simp [h, truthy]
  simp [this]

/-- Witness for C4: a light page with an empty store. -/
theorem onDOMContentLoaded_absent_witness :
    onDOMContentLoaded lightPage = lightPage ∧
    theme (onDOMContentLoaded lightPage) = theme lightPage ∧
    (onDOMContentLoaded lightPage).localStorage = lightPage.localStorage :=
  onDOMContentLoaded_absent lightPage (by decide)

end CustomJazzmin

namespace FeeForm

/-! ## Part III. The element tree -/

theorem elems_mapProps (g : Path → Props → Props) (t : Forest) (ctx : Path) (k : Nat) :
    (t.mapProps g ctx k).elems ctx k = (t.elems ctx k).map (fun e => (e.1, g e.1 e.2)) := by
  induction t generalizing ctx k with
  | nil => rfl
  | cons a ch sib ihc ihs => simp [Forest.mapProps, Forest.elems, ihc, ihs]

theorem mapProps_mapProps (g1 g2 : Path → Props → Props) (t : Forest) (ctx : Path) (k : Nat) :
    (t.mapProps g1 ctx k).mapProps g2 ctx k = t.mapProps (fun q a => g2 q (g1 q a)) ctx k := by
  induction t generalizing ctx k with
  | nil => rfl
  | cons a ch sib ihc ihs => simp [Forest.mapProps, ihc, ihs]

theorem mapProps_id (t : Forest) (ctx : Path) (k : Nat) :
    t.mapProps (fun _ a => a) ctx k = t := by
  induction t generalizing ctx k with
  | nil => rfl
  | cons a ch sib ihc ihs => simp [Forest.mapProps, ihc, ihs]

/-- Every path listed below `ctx` from index `k` on extends `ctx` by an index
that is at least `k`. -/
theorem path_of_mem_elems (t : Forest) (ctx : Path) (k : Nat) (e : Path × Props)
    (h : e ∈ t.elems ctx k) : ∃ pre j, e.1 = pre ++ j :: ctx ∧ k ≤ j := by
  induction t generalizing ctx k with
  | nil => simp [Forest.elems] at h
  | cons a ch sib ihc ihs =>
    simp only [Forest.elems, List.mem_cons, List.mem_append] at h
    rcases h with h | h | h
    · exact ⟨[], k, by simp [h], le_refl k⟩
    · obtain ⟨pre, j, hj, _⟩ := ihc _ _ h
      exact ⟨pre ++ [j], k, by simp [hj], le_refl k⟩
    · obtain ⟨pre, j, hj, hk⟩ := ihs _ _ h
      exact ⟨pre, j, hj, by omega⟩

theorem head_not_mem_children (ch : Forest) (ctx : Path) (k : Nat) (e : Path × Props)
    (h : e ∈ ch.elems (k :: ctx) 0) : e.1 ≠ k :: ctx := by
  obtain ⟨pre, j, hj, _⟩ := path_of_mem_elems _ _ _ _ h
  intro heq
  have := congrArg List.length (hj.symm.trans heq)
  simp at this
  omega

theorem head_not_mem_siblings (sib : Forest) (ctx : Path) (k : Nat) (e : Path × Props)
    (h : e ∈ sib.elems ctx (k + 1)) : e.1 ≠ k :: ctx := by
  obtain ⟨pre, j, hj, hk⟩ := path_of_mem_elems _ _ _ _ h
  intro heq
  have h1 := hj.symm.trans heq
  have h2 := congrArg List.length h1
  simp at h2
  subst h2
  simp at h1
  omega

theorem children_not_mem_siblings (ch sib : Forest) (ctx : Path) (k : Nat) (e e2 : Path × Props)
    (h : e ∈ ch.elems (k :: ctx) 0) (h2 : e2 ∈ sib.elems ctx (k + 1)) : e.1 ≠ e2.1 := by
  obtain ⟨pre, j, hj, _⟩ := path_of_mem_elems _ _ _ _ h
  obtain ⟨pre2, j2, hj2, hk⟩ := path_of_mem_elems _ _ _ _ h2
  intro heq
  have h1 : (pre ++ [j]) ++ k :: ctx = pre2 ++ j2 :: ctx := by
    rw [List.append_assoc]
    simpa using hj.symm.trans (heq.trans hj2)
  have h3 := List.append_inj_right' h1 (by simp)
  simp at h3
  omega

/-- The paths of the elements are pairwise distinct. -/
theorem nodup_paths (t : Forest) (ctx : Path) (k : Nat) :
    ((t.elems ctx k).map (fun e => e.1)).Nodup := by
  induction t generalizing ctx k with
  | nil => simp [Forest.elems]
  | cons a ch sib ihc ihs =>
    simp only [Forest.elems, List.map_cons, List.map_append, List.nodup_cons, List.mem_append,
      List.mem_map, not_or, not_exists, not_and]
    refine ⟨⟨fun e he => head_not_mem_children _ _ _ _ he,
      fun e he => head_not_mem_siblings _ _ _ _ he⟩, ?_⟩
    rw [List.nodup_append]
    refine ⟨ihc _ _, ihs _ _, ?_⟩
    intro p hp hp2
    simp only [List.mem_map] at hp hp2
    obtain ⟨e, he, rfl⟩ := hp
    obtain ⟨e2, he2, heq⟩ := hp2
    exact children_not_mem_siblings _ _ _ _ _ _ he he2 heq.symm

/-- The parent of a listed element is listed too, unless the element is at
the top of the listed part. -/
theorem parent_mem_elems (t : Forest) (ctx : Path) (k : Nat) (m : Nat) (p : Path) (a : Props)
    (h : (m :: p, a) ∈ t.elems ctx k) : p = ctx ∨ ∃ b, (p, b) ∈ t.elems ctx k := by
  induction t generalizing ctx k with
  | nil => simp [Forest.elems] at h
  | cons a0 ch sib ihc ihs =>
    simp only [Forest.elems, List.mem_cons, List.mem_append] at h
    rcases h with h | h | h
    · left
      simp at h
      exact h.1.2
    · right
      rcases ihc _ _ h with h1 | ⟨b, hb⟩
      · exact ⟨a0, by simp [Forest.elems, h1]⟩
      · exact ⟨b, by simp [Forest.elems, hb]⟩
    · rcases ihs _ _ h with h1 | ⟨b, hb⟩
      · exact Or.inl h1
      · exact Or.inr ⟨b, by simp [Forest.elems, hb]⟩

/-! ## Part IV. Property assignments keep every lookup -/

theorem test_cosmetic (g : Path → Props → Props) (hg : Cosmetic g) (sel : Selector) (q : Path)
    (a : Props) : sel.test (g q a) = sel.test a := by
  obtain ⟨h1, _, h3⟩ := hg q a
  cases sel <;> simp [Selector.test, h1, h3]

theorem elements_mapProps (g : Path → Props → Props) (d : Forest) :
    elements (d.mapProps g [] 0) = (elements d).map (fun e => (e.1, g e.1 e.2)) :=
  elems_mapProps g d [] 0

theorem propsAt_mapProps (g : Path → Props → Props) (d : Forest) (q : Path) :
    propsAt (d.mapProps g [] 0) q = (propsAt d q).map (g q) := by
  unfold propsAt
  rw [elements_mapProps, List.find?_map]
  have : ((fun e : Path × Props => e.1 == q) ∘ fun e => (e.1, g e.1 e.2))
      = fun e : Path × Props => e.1 == q := by
    funext e; rfl
  rw [this]
  cases h : (elements d).find? (fun e => e.1 == q) with
  | none => rfl
  | some e =>
    have := List.find?_some h
    simp only [beq_iff_eq] at this
    simp [this]

theorem getElementById_mapProps (g : Path → Props → Props) (hg : Cosmetic g) (d : Forest)
    (x : String) : getElementById (d.mapProps g [] 0) x = getElementById d x := by
  unfold getElementById
  rw [elements_mapProps, List.find?_map]
  have : ((fun e : Path × Props => e.2.id == x) ∘ fun e => (e.1, g e.1 e.2))
      = fun e : Path × Props => e.2.id == x := by
    funext e
    simp [(hg e.1 e.2).2.1]
  rw [this]
  cases (elements d).find? (fun e => e.2.id == x) <;> rfl

theorem querySelector_mapProps (g : Path → Props → Props) (hg : Cosmetic g) (d : Forest)
    (sel : Selector) : querySelector (d.mapProps g [] 0) sel = querySelector d sel := by
  unfold querySelector
  rw [elements_mapProps, List.find?_map]
  have : ((fun e : Path × Props => sel.test e.2) ∘ fun e => (e.1, g e.1 e.2))
      = fun e : Path × Props => sel.test e.2 := by
    funext e
    simp [test_cosmetic g hg]
  rw [this]
  cases (elements d).find? (fun e => sel.test e.2) <;> rfl

theorem closest_mapProps (g : Path → Props → Props) (hg : Cosmetic g) (d : Forest)
    (sel : Selector) (q : Path) : closest (d.mapProps g [] 0) sel q = closest d sel q := by
  induction q with
  | nil => rfl
  | cons k ctx ih =>
    simp only [closest, ih, propsAt_mapProps]
    cases propsAt d (k :: ctx) <;> simp [test_cosmetic g hg]

theorem findFieldContainer_mapProps (g : Path → Props → Props) (hg : Cosmetic g) (d : Forest)
    (f : String) : findFieldContainer (d.mapProps g [] 0) f = findFieldContainer d f := by
  simp only [findFieldContainer, getElementById_mapProps g hg, querySelector_mapProps g hg,
    closest_mapProps g hg]

theorem restyle_cosmetic (C I : Path → Bool) (v : Bool) : Cosmetic (restyle C I v) := by
  intro q a
  simp [restyle]

theorem setVisible_eq (d : Forest) (f : String) (v : Bool) :
    setVisible d f v = d.mapProps (restyle (isContainerOf d f) (isInputOf d f) v) [] 0 := by
  unfold setVisible
  cases hc : findFieldContainer d f with
  | none =>
    have : restyle (isContainerOf d f) (isInputOf d f) v = fun _ a => a := by
      funext q a
      simp [restyle, isContainerOf, isInputOf, hc]
    rw [this, mapProps_id]
  | some c =>
    have hcos : Cosmetic (fun q a => if q = c then
        ({ a with display := if v = true then "" else "none" } : Props) else a) := by
      intro q a
      by_cases h : q = c <;> simp [h]
    simp only [update]
    rw [getElementById_mapProps _ hcos]
    cases hi : getElementById d ("id_" ++ f) with
    | none =>
      simp only []
      congr 1
      funext q a
      by_cases h : q = c
      · subst h
        simp [restyle, isContainerOf, isInputOf, hc, hi, displayFor]
      · have h2 : ¬ c = q := fun e => h e.symm
        simp [restyle, isContainerOf, isInputOf, hc, hi, h, h2]
    | some i =>
      simp only []
      rw [mapProps_mapProps]
      congr 1
      funext q a
      by_cases h : q = c
      · subst h
        by_cases h3 : q = i
        · subst h3
          simp [restyle, isContainerOf, isInputOf, hc, hi, displayFor]
        · have h4 : ¬ i = q := fun e => h3 e.symm
          simp [restyle, isContainerOf, isInputOf, hc, hi, displayFor, h3, h4]
      · have h2 : ¬ c = q := fun e => h e.symm
        by_cases h3 : q = i
        · subst h3
          simp [restyle, isContainerOf, isInputOf, hc, hi, displayFor, h, h2]
        · have h4 : ¬ i = q := fun e => h3 e.symm
          simp [restyle, isContainerOf, isInputOf, hc, hi, displayFor, h, h2, h3, h4]

theorem restyle_restyle (C1 I1 C2 I2 : Path → Bool) (v : Bool) (q : Path) (a : Props) :
    restyle C2 I2 v q (restyle C1 I1 v q a)
      = restyle (fun q => C1 q || C2 q) (fun q => I1 q || I2 q) v q a := by
  have e1 : (if C2 q = true then displayFor v else if C1 q = true then displayFor v
      else a.display) = (if (C1 q || C2 q) = true then displayFor v else a.display) := by
    by_cases h1 : C1 q = true <;> by_cases h2 : C2 q = true <;> simp [h1, h2]
  have e2 : (if I2 q = true then !v else if I1 q = true then !v else a.disabled)
      = (if (I1 q || I2 q) = true then !v else a.disabled) := by
    by_cases h1 : I1 q = true <;> by_cases h2 : I2 q = true <;> simp [h1, h2]
  simp only [restyle, e1, e2]

theorem isContainerOf_mapProps (g : Path → Props → Props) (hg : Cosmetic g) (d : Forest)
    (f : String) : isContainerOf (d.mapProps g [] 0) f = isContainerOf d f := by
  funext q
  simp [isContainerOf, findFieldContainer_mapProps g hg]

theorem isInputOf_mapProps (g : Path → Props → Props) (hg : Cosmetic g) (d : Forest)
    (f : String) : isInputOf (d.mapProps g [] 0) f = isInputOf d f := by
  funext q
  simp [isInputOf, findFieldContainer_mapProps g hg, getElementById_mapProps g hg]

theorem foldl_setVisible_eq (fs : List String) (v : Bool) (d0 : Forest) (C0 I0 : Path → Bool) :
    fs.foldl (fun d f => setVisible d f v) (d0.mapProps (restyle C0 I0 v) [] 0)
      = d0.mapProps (restyle (fun q => C0 q || fs.any (fun f => isContainerOf d0 f q))
          (fun q => I0 q || fs.any (fun f => isInputOf d0 f q)) v) [] 0 := by
  induction fs generalizing C0 I0 with
  | nil => simp
  | cons f fs ih =>
    simp only [List.foldl_cons]
    rw [setVisible_eq, isContainerOf_mapProps _ (restyle_cosmetic _ _ _),
      isInputOf_mapProps _ (restyle_cosmetic _ _ _), mapProps_mapProps]
    have : (fun q a => restyle (isContainerOf d0 f) (isInputOf d0 f) v q (restyle C0 I0 v q a))
        = restyle (fun q => C0 q || isContainerOf d0 f q) (fun q => I0 q || isInputOf d0 f q) v := by
      funext q a
      exact restyle_restyle _ _ _ _ _ _ _
    rw [this, ih]
    congr 1
    funext q a
    simp [Bool.or_assoc]

/-- Closed form of `setSubFieldsVisible`. -/
theorem setSubFieldsVisible_eq (d : Forest) (v : Bool) :
    setSubFieldsVisible d v = d.mapProps (restyle (isSubContainer d) (isSubInput d) v) [] 0 := by
  have h := foldl_setVisible_eq SUB_FIELDS v d (fun _ => false) (fun _ => false)
  have hid : restyle (fun _ => false) (fun _ => false) v = fun _ a => a := by
    funext q a
    simp [restyle]
  rw [hid, mapProps_id] at h
  unfold setSubFieldsVisible
  rw [h]
  congr 1

/-! ## Part V. Lookups return elements of the document -/

theorem find_path_of_mem (l : List (Path × Props)) (hnd : (l.map (fun e => e.1)).Nodup)
    (q : Path) (a : Props) (h : (q, a) ∈ l) : l.find? (fun e => e.1 == q) = some (q, a) := by
  induction l with
  | nil => simp at h
  | cons e l ih =>
    simp only [List.map_cons, List.nodup_cons] at hnd
    simp only [List.mem_cons] at h
    rcases h with h | h
    · subst h
      simp
    · have hne : e.1 ≠ q := by
        intro he
        apply hnd.1
        rw [he]
        exact List.mem_map.mpr ⟨(q, a), h, rfl⟩
      have hb : (e.1 == q) = false := by simpa using hne
      rw [List.find?_cons, hb]
      exact ih hnd.2 h

theorem propsAt_of_mem (d : Forest) (q : Path) (a : Props) (h : (q, a) ∈ elements d) :
    propsAt d q = some a := by
  unfold propsAt
  have := find_path_of_mem (elements d) (nodup_paths d [] 0) q a h
  rw [this]
  rfl

theorem mem_of_propsAt (d : Forest) (q : Path) (a : Props) (h : propsAt d q = some a) :
    (q, a) ∈ elements d := by
  unfold propsAt at h
  cases hf : (elements d).find? (fun e => e.1 == q) with
  | none => simp [hf] at h
  | some e =>
    have h1 := List.find?_some hf
    have h2 := List.mem_of_find?_eq_some hf
    simp only [beq_iff_eq] at h1
    simp only [hf, Option.map_some', Option.some.injEq] at h
    obtain ⟨p, b⟩ := e
    simp only at h1 h
    subst h1 h
    exact h2

theorem getElementById_some (d : Forest) (x : String) (i : Path)
    (h : getElementById d x = some i) : ∃ a, propsAt d i = some a ∧ a.id = x := by
  unfold getElementById at h
  cases hf : (elements d).find? (fun e => e.2.id == x) with
  | none => simp [hf] at h
  | some e =>
    have h1 := List.find?_some hf
    have h2 := List.mem_of_find?_eq_some hf
    simp only [beq_iff_eq] at h1
    simp only [hf, Option.map_some', Option.some.injEq] at h
    obtain ⟨p, b⟩ := e
    simp only at h1 h
    subst h
    exact ⟨b, propsAt_of_mem d p b h2, h1⟩

theorem querySelector_some (d : Forest) (sel : Selector) (c : Path)
    (h : querySelector d sel = some c) : ∃ a, propsAt d c = some a ∧ sel.test a = true := by
  unfold querySelector at h
  cases hf : (elements d).find? (fun e => sel.test e.2) with
  | none => simp [hf] at h
  | some e =>
    have h1 := List.find?_some hf
    have h2 := List.mem_of_find?_eq_some hf
    simp only [hf, Option.map_some', Option.some.injEq] at h
    obtain ⟨p, b⟩ := e
    simp only at h1 h
    subst h
    exact ⟨b, propsAt_of_mem d p b h2, h1⟩

theorem closest_some (d : Forest) (sel : Selector) (i c : Path) (h : closest d sel i = some c) :
    ∃ a, propsAt d c = some a ∧ sel.test a = true := by
  induction i with
  | nil => simp [closest] at h
  | cons k ctx ih =>
    simp only [closest] at h
    by_cases ht : (propsAt d (k :: ctx)).any sel.test = true
    · simp only [ht, if_true, Option.some.injEq] at h
      subst h
      cases hp : propsAt d (k :: ctx) with
      | none => simp [hp] at ht
      | some a => exact ⟨a, rfl, by simpa [hp] using ht⟩
    · simp only [ht] at h
      exact ih h

theorem parentElement_some (d : Forest) (i c : Path) (a : Props) (hi : propsAt d i = some a)
    (h : parentElement i = some c) : ∃ b, propsAt d c = some b := by
  match i, h with
  | m :: k :: ctx, h =>
    simp only [parentElement, Option.some.injEq] at h
    subst h
    rcases parent_mem_elems d [] 0 m (k :: ctx) a (mem_of_propsAt d _ a hi) with h1 | ⟨b, hb⟩
    · simp at h1
    · exact ⟨b, propsAt_of_mem d _ b hb⟩

/-- The container `findFieldContainer` returns is an element of the document. -/
theorem findFieldContainer_some (d : Forest) (f : String) (c : Path)
    (h : findFieldContainer d f = some c) : ∃ a, propsAt d c = some a := by
  unfold findFieldContainer at h
  cases hq : querySelector d (.cls ("field-" ++ f)) with
  | some c2 =>
    simp only [hq, Option.some.injEq] at h
    subst h
    obtain ⟨a, ha, _⟩ := querySelector_some d _ _ hq
    exact ⟨a, ha⟩
  | none =>
    simp only [hq] at h
    cases hi : getElementById d ("id_" ++ f) with
    | none => simp [hi] at h
    | some i =>
      simp only [hi] at h
      obtain ⟨ai, hai, _⟩ := getElementById_some d _ _ hi
      cases h1 : closest d (.cls "form-group") i with
      | some c1 =>
        simp only [h1, Option.orElse, Option.some.injEq] at h
        subst h
        obtain ⟨a, ha, _⟩ := closest_some d _ _ _ h1
        exact ⟨a, ha⟩
      | none =>
        cases h2 : closest d (.cls "row") i with
        | some c1 =>
          simp only [h1, h2, Option.orElse, Option.some.injEq] at h
          subst h
          obtain ⟨a, ha, _⟩ := closest_some d _ _ _ h2
          exact ⟨a, ha⟩
        | none =>
          cases h3 : closest d (.tag "div") i with
          | some c1 =>
            simp only [h1, h2, h3, Option.orElse, Option.some.injEq] at h
            subst h
            obtain ⟨a, ha, _⟩ := closest_some d _ _ _ h3
            exact ⟨a, ha⟩
          | none =>
            simp only [h1, h2, h3, Option.orElse] at h
            exact parentElement_some d i c ai hai h

/-! ## Part VI. Field containers and visibility -/

theorem getElementById_setSubFieldsVisible (d : Forest) (v : Bool) (x : String) :
    getElementById (setSubFieldsVisible d v) x = getElementById d x := by
  rw [setSubFieldsVisible_eq, getElementById_mapProps _ (restyle_cosmetic _ _ _)]

theorem findFieldContainer_setSubFieldsVisible (d : Forest) (v : Bool) (f : String) :
    findFieldContainer (setSubFieldsVisible d v) f = findFieldContainer d f := by
  rw [setSubFieldsVisible_eq, findFieldContainer_mapProps _ (restyle_cosmetic _ _ _)]

theorem propsAt_setSubFieldsVisible (d : Forest) (v : Bool) (q : Path) :
    propsAt (setSubFieldsVisible d v) q
      = (propsAt d q).map (restyle (isSubContainer d) (isSubInput d) v q) := by
  rw [setSubFieldsVisible_eq, propsAt_mapProps]

theorem isSubContainer_of_container (d : Forest) (f : String) (hf : f ∈ SUB_FIELDS) (c : Path)
    (h : findFieldContainer d f = some c) : isSubContainer d c = true := by
  unfold isSubContainer
  rw [List.any_eq_true]
  exact ⟨f, hf, by simp [isContainerOf, h]⟩

theorem isSubInput_of_input (d : Forest) (f : String) (hf : f ∈ SUB_FIELDS) (c i : Path)
    (h : findFieldContainer d f = some c) (hi : getElementById d ("id_" ++ f) = some i) :
    isSubInput d i = true := by
  unfold isSubInput
  rw [List.any_eq_true]
  exact ⟨f, hf, by simp [isInputOf, h, hi]⟩

/-- After `setSubFieldsVisible`, a dependent field whose container resolves has
the display value on its container and the disabled flag on its input. -/
theorem setSubFieldsVisible_field (d : Forest) (v : Bool) (f : String) (hf : f ∈ SUB_FIELDS)
    (c : Path) (h : findFieldContainer d f = some c) :
    findFieldContainer (setSubFieldsVisible d v) f = some c ∧
    (∃ a, propsAt (setSubFieldsVisible d v) c = some a ∧ a.display = displayFor v) ∧
    ∀ i, getElementById d ("id_" ++ f) = some i →
      getElementById (setSubFieldsVisible d v) ("id_" ++ f) = some i ∧
      ∃ b, propsAt (setSubFieldsVisible d v) i = some b ∧ b.disabled = !v := by
  refine ⟨by rw [findFieldContainer_setSubFieldsVisible, h], ?_, ?_⟩
  · obtain ⟨a, ha⟩ := findFieldContainer_some d f c h
    refine ⟨restyle (isSubContainer d) (isSubInput d) v c a, ?_, ?_⟩
    · rw [propsAt_setSubFieldsVisible, ha]
      rfl
    · simp [restyle, isSubContainer_of_container d f hf c h]
  · intro i hi
    refine ⟨by rw [getElementById_setSubFieldsVisible, hi], ?_⟩
    obtain ⟨b, hb, _⟩ := getElementById_some d _ i hi
    refine ⟨restyle (isSubContainer d) (isSubInput d) v i b, ?_, ?_⟩
    · rw [propsAt_setSubFieldsVisible, hb]
      rfl
    · simp [restyle, isSubInput_of_input d f hf c i h hi]

theorem setSubFieldsVisible_skips (d : Forest) (v : Bool) :
    setSubFieldsVisible d v
      = (SUB_FIELDS.filter (fun g => (findFieldContainer d g).isSome)).foldl
          (fun d g => setVisible d g v) d := by
  have h := foldl_setVisible_eq
    (SUB_FIELDS.filter (fun g => (findFieldContainer d g).isSome)) v d
    (fun _ => false) (fun _ => false)
  have hid : restyle (fun _ => false) (fun _ => false) v = fun _ a => a := by
    funext q a
    simp [restyle]
  rw [hid, mapProps_id] at h
  rw [h, setSubFieldsVisible_eq]
  congr 1
  funext q a
  have e1 : isSubContainer d q = (false || (SUB_FIELDS.filter
      (fun g => (findFieldContainer d g).isSome)).any (fun f => isContainerOf d f q)) := by
    rw [List.any_filter, Bool.false_or]
    unfold isSubContainer
    congr 1
    funext g
    cases hg : findFieldContainer d g <;> simp [isContainerOf, hg]
  have e2 : isSubInput d q = (false || (SUB_FIELDS.filter
      (fun g => (findFieldContainer d g).isSome)).any (fun f => isInputOf d f q)) := by
    rw [List.any_filter, Bool.false_or]
    unfold isSubInput
    congr 1
    funext g
    cases hg : findFieldContainer d g <;> simp [isInputOf, hg]
  simp only [restyle, e1, e2]

theorem findFieldContainer_resolves (d : Forest) (g : String)
    (h : (querySelector d (.cls ("field-" ++ g))).isSome = true ∨
      ∃ i, getElementById d ("id_" ++ g) = some i ∧ (parentElement i).isSome = true) :
    ∃ c, findFieldContainer d g = some c := by
  unfold findFieldContainer
  cases hq : querySelector d (.cls ("field-" ++ g)) with
  | some c => exact ⟨c, rfl⟩
  | none =>
    rcases h with h | ⟨i, hi, hp⟩
    · simp [hq] at h
    · obtain ⟨p, hp⟩ := Option.isSome_iff_exists.mp hp
      simp only [hi, hp]
      cases closest d (.cls "form-group") i <;> cases closest d (.cls "row") i <;>
        cases closest d (.tag "div") i <;> simp [Option.orElse]

/-- C9 as stated fails: on a page whose root element carries the id
`id_duration_months` and which has no markup for `grace_days`, the field
`grace_days` is unresolvable and `duration_months` is another dependent field,
with an input; `setSubFieldsVisible(false)` changes nothing, so the input of
`duration_months` is not disabled. -/
theorem setSubFieldsVisible_leaves_root_input :
    (querySelector rootOnlyPage (.cls "field-grace_days") = none ∧
      getElementById rootOnlyPage "id_grace_days" = none) ∧
    getElementById rootOnlyPage "id_duration_months" = some [0] ∧
    findFieldContainer rootOnlyPage "duration_months" = none ∧
    setSubFieldsVisible rootOnlyPage false = rootOnlyPage ∧
    (propsAt (setSubFieldsVisible rootOnlyPage false) [0]).map (fun a => a.disabled)
      = some false := by
  decide

/-- C9, amended: for a field name `f` that is an identifier, when neither an
element of class `field-<f>` nor an input `id_<f>` exists, `setVisible(f,
visible)` returns normally and leaves the page as it was; and
`setSubFieldsVisible(visible)` skips the fields whose container does not
resolve: it is the same as handling the resolvable fields only, and every
dependent field that has an element of class `field-<g>`, or an input `id_<g>`
with a parent element, gets the display value on its container and the
disabled flag on its input, whatever the other fields are. -/
theorem setVisible_unresolved (d : Forest) (f : String) (visible : Bool)
    (_hid : isIdentifier f = true)
    (hclass : querySelector d (.cls ("field-" ++ f)) = none)
    (hinput : getElementById d ("id_" ++ f) = none) :
    setVisible d f visible = d ∧
    setSubFieldsVisible d visible
      = (SUB_FIELDS.filter (fun g => (findFieldContainer d g).isSome)).foldl
          (fun d g => setVisible d g visible) d ∧
    ∀ g ∈ SUB_FIELDS,
      ((querySelector d (.cls ("field-" ++ g))).isSome = true ∨
        ∃ i, getElementById d ("id_" ++ g) = some i ∧ (parentElement i).isSome = true) →
      ∃ c, findFieldContainer d g = some c ∧
        findFieldContainer (setSubFieldsVisible d visible) g = some c ∧
        (∃ a, propsAt (setSubFieldsVisible d visible) c = some a ∧
          a.display = (if visible then "" else "none")) ∧
        ∀ i, getElementById d ("id_" ++ g) = some i →
          getElementById (setSubFieldsVisible d visible) ("id_" ++ g) = some i ∧
          ∃ b, propsAt (setSubFieldsVisible d visible) i = some b ∧ b.disabled = !visible := by
  refine ⟨?_, setSubFieldsVisible_skips d visible, ?_⟩
  · have hnone : findFieldContainer d f = none := by
      simp [findFieldContainer, hclass, hinput]
    simp [setVisible, hnone]
  · intro g hg hres
    obtain ⟨c, hc⟩ := findFieldContainer_resolves d g hres
    exact ⟨c, hc, setSubFieldsVisible_field d visible g hg c hc⟩

/-- Witness for C9: `max_missed_cycles` is missing from the two-field page,
and `grace_days` has an input inside a form group. -/
theorem setVisible_unresolved_witness :
    setVisible (twoFieldPage "membership") "max_missed_cycles" false
      = twoFieldPage "membership" ∧
    setSubFieldsVisible (twoFieldPage "membership") false
      = (SUB_FIELDS.filter
          (fun g => (findFieldContainer (twoFieldPage "membership") g).isSome)).foldl
          (fun d g => setVisible d g false) (twoFieldPage "membership") ∧
    ∃ c, findFieldContainer (twoFieldPage "membership") "grace_days" = some c ∧
      findFieldContainer (setSubFieldsVisible (twoFieldPage "membership") false) "grace_days"
        = some c ∧
      (∃ a, propsAt (setSubFieldsVisible (twoFieldPage "membership") false) c = some a ∧
        a.display = (if false then "" else "none")) ∧
      ∀ i, getElementById (twoFieldPage "membership") ("id_" ++ "grace_days") = some i →
        getElementById (setSubFieldsVisible (twoFieldPage "membership") false)
          ("id_" ++ "grace_days") = some i ∧
        ∃ b, propsAt (setSubFieldsVisible (twoFieldPage "membership") false) i = some b ∧
          b.disabled = !false :=
  have h := setVisible_unresolved (twoFieldPage "membership") "max_missed_cycles" false
    (by decide) (by decide) (by decide)
  ⟨h.1, h.2.1, h.2.2 "grace_days" (by decide) (Or.inr ⟨[1, 1, 0, 0], by decide, by decide⟩)⟩

theorem propsAt_nil (d : Forest) : propsAt d [] = none := by
  cases h : propsAt d [] with
  | none => rfl
  | some a =>
    obtain ⟨pre, j, hj, _⟩ := path_of_mem_elems d [] 0 _ (mem_of_propsAt d [] a h)
    simp at hj

/-- The method `closest` returns the nearest match among the element and its
ancestors. -/
theorem closest_eq_nearestMatch (d : Forest) (sel : Selector) (i : Path) :
    closest d sel i = nearestMatch d sel i := by
  unfold nearestMatch
  induction i with
  | nil => simp [closest, propsAt_nil]
  | cons k ctx ih =>
    simp only [closest, List.tails, List.find?_cons]
    by_cases ht : (propsAt d (k :: ctx)).any sel.test = true
    · simp [ht]
    · have hf : (propsAt d (k :: ctx)).any sel.test = false := by simpa using ht
      simp only [hf]
      exact ih

/-- When the element itself does not match, the nearest match is the nearest
matching ancestor. -/
theorem nearestMatch_eq_nearestAncestor (d : Forest) (sel : Selector) (i : Path)
    (h : (propsAt d i).any sel.test = false) :
    nearestMatch d sel i = nearestAncestor d sel i := by
  unfold nearestAncestor nearestMatch
  cases i with
  | nil => rfl
  | cons k ctx => simp only [List.tails, List.find?_cons, h, List.tail_cons]

/-- C10 as stated fails: the input `id_grace_days` has the class `row` itself
and sits in a `div` inside a `section` of class `row`; `findFieldContainer`
returns the input, where the nearest `.row` ancestor of the input is the
section. -/
theorem findFieldContainer_returns_input :
    querySelector rowInputPage (.cls "field-grace_days") = none ∧
    getElementById rowInputPage "id_grace_days" = some [0, 0, 0, 0, 0] ∧
    findFieldContainer rowInputPage "grace_days" = some [0, 0, 0, 0, 0] ∧
    nearestAncestor rowInputPage (.cls "form-group") [0, 0, 0, 0, 0] = none ∧
    nearestAncestor rowInputPage (.cls "row") [0, 0, 0, 0, 0] = some [0, 0, 0] ∧
    claimedContainer rowInputPage "grace_days" = some [0, 0, 0] ∧
    findFieldContainer rowInputPage "grace_days"
      ≠ claimedContainer rowInputPage "grace_days" := by
  decide

/-- C10, amended: for a field name `f` that is an identifier,
`findFieldContainer(f)` returns the first element of class `field-<f>` when
there is one, whether or not the input exists; otherwise nothing when the
input `id_<f>` is missing; otherwise the first that exists among the nearest
`.form-group`, the nearest `.row` and the nearest `div`, each searched among
the input itself and its ancestors, and the parent of the input.  When the
input itself is neither `.form-group` nor `.row` nor a `div`, this is the
container as C10 words it, with ancestors only. -/
theorem findFieldContainer_strategy (d : Forest) (f : String) (_hid : isIdentifier f = true) :
    (∀ c, querySelector d (.cls ("field-" ++ f)) = some c → findFieldContainer d f = some c) ∧
    (querySelector d (.cls ("field-" ++ f)) = none → getElementById d ("id_" ++ f) = none →
      findFieldContainer d f = none) ∧
    (querySelector d (.cls ("field-" ++ f)) = none →
      ∀ i, getElementById d ("id_" ++ f) = some i →
        findFieldContainer d f = firstExisting
          [nearestMatch d (.cls "form-group") i, nearestMatch d (.cls "row") i,
            nearestMatch d (.tag "div") i, parentElement i]) ∧
    ((∀ i a, getElementById d ("id_" ++ f) = some i → propsAt d i = some a →
        a.classes.contains "form-group" = false ∧ a.classes.contains "row" = false ∧
          a.tag ≠ "div") →
      findFieldContainer d f = claimedContainer d f) := by
  have h3 : querySelector d (.cls ("field-" ++ f)) = none →
      ∀ i, getElementById d ("id_" ++ f) = some i →
        findFieldContainer d f = firstExisting
          [nearestMatch d (.cls "form-group") i, nearestMatch d (.cls "row") i,
            nearestMatch d (.tag "div") i, parentElement i] := by
    intro hc i hi
    simp only [findFieldContainer, hc, hi, closest_eq_nearestMatch]
    cases nearestMatch d (.cls "form-group") i <;> cases nearestMatch d (.cls "row") i <;>
      cases nearestMatch d (.tag "div") i <;> cases parentElement i <;>
      simp [firstExisting, Option.orElse]
  refine ⟨?_, ?_, h3, ?_⟩
  · intro c hc
    simp [findFieldContainer, hc]
  · intro hc hi
    simp [findFieldContainer, hc, hi]
  · intro hself
    cases hc : querySelector d (.cls ("field-" ++ f)) with
    | some c => simp [findFieldContainer, claimedContainer, hc]
    | none =>
      cases hi : getElementById d ("id_" ++ f) with
      | none => simp [findFieldContainer, claimedContainer, hc, hi]
      | some i =>
        obtain ⟨a, ha, _⟩ := getElementById_some d _ i hi
        obtain ⟨h1, h2, h4⟩ := hself i a hi ha
        rw [h3 hc i hi]
        simp only [claimedContainer, hc, hi]
        rw [nearestMatch_eq_nearestAncestor d (.cls "form-group") i
            (by simpa [ha, Selector.test] using h1),
          nearestMatch_eq_nearestAncestor d (.cls "row") i
            (by simpa [ha, Selector.test] using h2),
          nearestMatch_eq_nearestAncestor d (.tag "div") i (by simp [ha, Selector.test, h4])]

/-- Witness for C10: on the two-field page `grace_days` has no wrapper of its
own class and its container is the form group around its input, which is
also the container as C10 words it. -/
theorem findFieldContainer_strategy_witness :
    findFieldContainer (twoFieldPage "membership") "grace_days" = firstExisting
      [nearestMatch (twoFieldPage "membership") (.cls "form-group") [1, 1, 0, 0],
        nearestMatch (twoFieldPage "membership") (.cls "row") [1, 1, 0, 0],
        nearestMatch (twoFieldPage "membership") (.tag "div") [1, 1, 0, 0],
        parentElement [1, 1, 0, 0]] ∧
    findFieldContainer (twoFieldPage "membership") "grace_days"
      = claimedContainer (twoFieldPage "membership") "grace_days" :=
  have w := findFieldContainer_strategy (twoFieldPage "membership") "grace_days" (by decide)
  ⟨w.2.2.1 (by decide) [1, 1, 0, 0] (by decide),
    w.2.2.2 (fun i a hi ha => by
      have h1 : getElementById (twoFieldPage "membership") ("id_" ++ "grace_days")
          = some [1, 1, 0, 0] := by decide
      rw [h1] at hi
      cases hi
      have h2 : propsAt (twoFieldPage "membership") [1, 1, 0, 0]
          = some { createElement "input" with id := "id_grace_days" } := by decide
      rw [h2] at ha
      cases ha
      decide)⟩

/-! ## Part VII. Writing the hint text -/

/-- The assignment of the text `s` to the element `h` as a change of
properties. -/
theorem setText_eq_mapProps (h : Path) (s : String) (t : Forest) (ctx : Path) (k : Nat)
    (hl : t.hintsAreLeaves = true)
    (hid : ∀ e ∈ t.elems ctx k, e.1 = h → e.2.id = "fee_type_hint") :
    t.setText h s ctx k
      = t.mapProps (fun q a => if q = h then { a with innerText := s } else a) ctx k := by
  induction t generalizing ctx k with
  | nil => rfl
  | cons a ch sib ihc ihs =>
    simp only [Forest.hintsAreLeaves, Bool.and_eq_true, Bool.or_eq_true, bne_iff_ne] at hl
    simp only [Forest.elems, List.mem_cons, List.mem_append] at hid
    have hs := ihs ctx (k + 1) hl.2 (fun e he => hid e (Or.inr (Or.inr he)))
    have hc := ihc (k :: ctx) 0 hl.1.2 (fun e he => hid e (Or.inr (Or.inl he)))
    by_cases hk : k :: ctx = h
    · have ha : a.id = "fee_type_hint" := hid (k :: ctx, a) (Or.inl rfl) hk
      have hnil : ch = .nil := by
        rcases hl.1.1 with h1 | h1
        · exact absurd ha h1
        · cases ch with
          | nil => rfl
          | cons b c1 c2 => simp [Forest.isEmpty] at h1
      subst hnil
      simp only [Forest.setText, Forest.mapProps, hk, if_true, hs]
    · simp only [Forest.setText, Forest.mapProps, hk, if_false, hs, hc]

theorem hintsAreLeaves_mapProps (g : Path → Props → Props) (hg : Cosmetic g) (t : Forest)
    (ctx : Path) (k : Nat) : (t.mapProps g ctx k).hintsAreLeaves = t.hintsAreLeaves := by
  induction t generalizing ctx k with
  | nil => rfl
  | cons a ch sib ihc ihs =>
    have he : (ch.mapProps g (k :: ctx) 0).isEmpty = ch.isEmpty := by
      cases ch <;> rfl
    simp only [Forest.mapProps, Forest.hintsAreLeaves, ihc, ihs, (hg (k :: ctx) a).2.1, he]

theorem setInnerText_eq_update (d : Forest) (h : Path) (s : String)
    (hl : d.hintsAreLeaves = true) (hh : getElementById d "fee_type_hint" = some h) :
    setInnerText d h s = update d h (fun a => { a with innerText := s }) := by
  unfold setInnerText update
  apply setText_eq_mapProps h s d [] 0 hl
  intro e he heq
  obtain ⟨a, ha, hid⟩ := getElementById_some d _ h hh
  have h2 : propsAt d e.1 = some e.2 := propsAt_of_mem d e.1 e.2 he
  rw [heq, ha] at h2
  simp only [Option.some.injEq] at h2
  rw [← h2]
  exact hid

/-- The text written on `h` replaces the text that was there. -/
theorem find_path_setText (h : Path) (s : String) (t : Forest) (ctx : Path) (k : Nat) :
    ((t.setText h s ctx k).elems ctx k).find? (fun e => e.1 == h)
      = ((t.elems ctx k).find? (fun e => e.1 == h)).map
          (fun e => (e.1, { e.2 with innerText := s })) := by
  induction t generalizing ctx k with
  | nil => rfl
  | cons a ch sib ihc ihs =>
    by_cases hk : k :: ctx = h
    · simp [Forest.setText, Forest.elems, hk]
    · have hb : ((k :: ctx) == h) = false := by simpa using hk
      simp only [Forest.setText, hk, if_false, Forest.elems, List.find?_cons, hb,
        List.find?_append, ihc, ihs]
      cases List.find? (fun e => e.1 == h) (Forest.elems (k :: ctx) 0 ch) <;> simp

theorem propsAt_setInnerText_self (d : Forest) (h : Path) (s : String) (a : Props)
    (ha : propsAt d h = some a) :
    propsAt (setInnerText d h s) h = some { a with innerText := s } := by
  unfold propsAt at ha
  unfold propsAt setInnerText elements
  rw [find_path_setText]
  unfold elements at ha
  cases hf : List.find? (fun e => e.1 == h) (Forest.elems [] 0 d) with
  | none => simp [hf] at ha
  | some e =>
    simp only [hf, Option.map_some', Option.some.injEq] at ha
    simp [ha]

/-- Every element after the text assignment was there before, with the same id. -/
theorem mem_elems_setText (h : Path) (s : String) (t : Forest) (ctx : Path) (k : Nat)
    (e2 : Path × Props) (he : e2 ∈ (t.setText h s ctx k).elems ctx k) :
    ∃ e ∈ t.elems ctx k, e.1 = e2.1 ∧ e.2.id = e2.2.id := by
  induction t generalizing ctx k with
  | nil => simp [Forest.setText, Forest.elems] at he
  | cons a ch sib ihc ihs =>
    by_cases hk : k :: ctx = h
    · simp only [Forest.setText, hk, if_true, Forest.elems, List.nil_append,
        List.mem_cons] at he
      rcases he with he | he
      · exact ⟨(k :: ctx, a), by simp [Forest.elems], by simp [he, hk], by simp [he]⟩
      · obtain ⟨e, hm, h1, h2⟩ := ihs _ _ he
        exact ⟨e, by simp [Forest.elems, hm], h1, h2⟩
    · simp only [Forest.setText, hk, if_false, Forest.elems, List.mem_cons,
        List.mem_append] at he
      rcases he with he | he | he
      · exact ⟨(k :: ctx, a), by simp [Forest.elems], by simp [he], by simp [he]⟩
      · obtain ⟨e, hm, h1, h2⟩ := ihc _ _ he
        exact ⟨e, by simp [Forest.elems, hm], h1, h2⟩
      · obtain ⟨e, hm, h1, h2⟩ := ihs _ _ he
        exact ⟨e, by simp [Forest.elems, hm], h1, h2⟩

theorem find_id_setText_none (h : Path) (s : String) (x : String) (t : Forest) (ctx : Path)
    (k : Nat) (hn : (t.elems ctx k).find? (fun e => e.2.id == x) = none) :
    ((t.setText h s ctx k).elems ctx k).find? (fun e => e.2.id == x) = none := by
  rw [List.find?_eq_none] at hn ⊢
  intro e2 he2
  obtain ⟨e, hm, _, h2⟩ := mem_elems_setText h s t ctx k e2 he2
  rw [← h2]
  exact hn e hm

/-- An element found by id at `h` is still the one found by that id once the
text of `h` is written. -/
theorem find_id_setText (h : Path) (s : String) (x : String) (t : Forest) (ctx : Path)
    (k : Nat) (a : Props) (hf : (t.elems ctx k).find? (fun e => e.2.id == x) = some (h, a)) :
    ((t.setText h s ctx k).elems ctx k).find? (fun e => e.2.id == x)
      = some (h, { a with innerText := s }) := by
  induction t generalizing ctx k with
  | nil => simp [Forest.elems] at hf
  | cons a0 ch sib ihc ihs =>
    simp only [Forest.elems, List.find?_cons] at hf
    by_cases hk : k :: ctx = h
    · simp only [Forest.setText, hk, if_true, Forest.elems, List.nil_append, List.find?_cons]
      cases hx : (a0.id == x) with
      | true =>
        simp only [hx, Option.some.injEq, Prod.mk.injEq] at hf
        simp [hx, hf.2.symm]
      | false =>
        simp only [hx, List.find?_append] at hf
        exfalso
        cases hc : List.find? (fun e => e.2.id == x) (Forest.elems (k :: ctx) 0 ch) with
        | some e =>
          simp only [hc, Option.or_some, Option.some.injEq] at hf
          have := head_not_mem_children ch ctx k e (List.mem_of_find?_eq_some hc)
          rw [hf] at this
          exact this hk.symm
        | none =>
          simp only [hc, Option.none_or] at hf
          have := head_not_mem_siblings sib ctx k _ (List.mem_of_find?_eq_some hf)
          exact this hk.symm
    · cases hx : (a0.id == x) with
      | true =>
        simp only [hx, Option.some.injEq, Prod.mk.injEq] at hf
        exact absurd hf.1 hk
      | false =>
        simp only [hx, List.find?_append] at hf
        simp only [Forest.setText, hk, if_false, Forest.elems, List.find?_cons, hx,
          List.find?_append]
        cases hc : List.find? (fun e => e.2.id == x) (Forest.elems (k :: ctx) 0 ch) with
        | some e =>
          simp only [hc, Option.or_some, Option.some.injEq] at hf
          subst hf
          rw [ihc _ _ hc]
          simp
        | none =>
          simp only [hc, Option.none_or] at hf
          rw [find_id_setText_none h s x ch _ _ hc, ihs _ _ hf]
          simp

theorem getElementById_setInnerText_self (d : Forest) (h : Path) (s : String) (x : String)
    (hh : getElementById d x = some h) : getElementById (setInnerText d h s) x = some h := by
  unfold getElementById at hh
  unfold getElementById setInnerText elements
  unfold elements at hh
  cases hf : List.find? (fun e => e.2.id == x) (Forest.elems [] 0 d) with
  | none => simp [hf] at hh
  | some e =>
    simp only [hf, Option.map_some', Option.some.injEq] at hh
    obtain ⟨p, a⟩ := e
    simp only at hh
    subst hh
    rw [find_id_setText p s x d [] 0 a hf]
    rfl

theorem countP_setText_le (h : Path) (s : String) (x : String) (t : Forest) (ctx : Path)
    (k : Nat) :
    ((t.setText h s ctx k).elems ctx k).countP (fun e => e.2.id == x)
      ≤ (t.elems ctx k).countP (fun e => e.2.id == x) := by
  induction t generalizing ctx k with
  | nil => simp [Forest.setText]
  | cons a ch sib ihc ihs =>
    by_cases hk : k :: ctx = h
    · simp only [Forest.setText, hk, if_true, Forest.elems, List.nil_append, List.countP_cons,
        List.countP_append]
      have := ihs ctx (k + 1)
      omega
    · simp only [Forest.setText, hk, if_false, Forest.elems, List.countP_cons,
        List.countP_append]
      have h1 := ihs ctx (k + 1)
      have h2 := ihc (k :: ctx) 0
      omega


theorem find_filterMap_some {α : Type} (f : α → Option α) (p : α → Bool)
    (hp : ∀ e e2, f e = some e2 → p e2 = p e) (l : List α) (x x2 : α)
    (hx : l.find? p = some x) (hfx : f x = some x2) :
    (l.filterMap f).find? p = some x2 := by
  induction l with
  | nil => simp at hx
  | cons e l ih =>
    rw [List.find?_cons] at hx
    cases hpe : p e with
    | true =>
      simp only [hpe, Option.some.injEq] at hx
      subst hx
      rw [List.filterMap_cons, hfx, List.find?_cons, hp e x2 hfx, hpe]
    | false =>
      simp only [hpe] at hx
      rw [List.filterMap_cons]
      cases hfe : f e with
      | none => exact ih hx
      | some e2 =>
        simp only []
        rw [List.find?_cons, hp e e2 hfe, hpe]
        exact ih hx

theorem find_filterMap_none {α : Type} (f : α → Option α) (p : α → Bool)
    (hp : ∀ e e2, f e = some e2 → p e2 = p e) (l : List α)
    (hx : l.find? p = none) : (l.filterMap f).find? p = none := by
  rw [List.find?_eq_none] at hx ⊢
  intro e2 he2
  obtain ⟨e, he, hfe⟩ := List.mem_filterMap.mp he2
  rw [hp e e2 hfe]
  exact hx e he

theorem find_filterMap_unique {α : Type} (f : α → Option α) (p : α → Bool)
    (hp : ∀ e e2, f e = some e2 → p e2 = p e) (l : List α) (x : α)
    (hc : l.countP p ≤ 1) (hx : l.find? p = some x) (hfx : f x = none) :
    (l.filterMap f).find? p = none := by
  induction l with
  | nil => rfl
  | cons e l ih =>
    rw [List.find?_cons] at hx
    rw [List.countP_cons] at hc
    cases hpe : p e with
    | true =>
      simp only [hpe, Option.some.injEq] at hx
      subst hx
      simp only [hpe, if_true] at hc
      have h0 : l.countP p = 0 := by omega
      rw [List.filterMap_cons, hfx]
      apply find_filterMap_none f p hp
      rw [List.find?_eq_none]
      intro y hy
      rw [List.countP_eq_zero] at h0
      exact h0 y hy
    | false =>
      simp only [hpe] at hx hc
      rw [List.filterMap_cons]
      cases hfe : f e with
      | none => exact ih (by simpa using hc) hx
      | some e2 =>
        simp only []
        rw [List.find?_cons, hp e e2 hfe, hpe]
        exact ih (by simpa using hc) hx

theorem filter_filterMap {α : Type} (f : α → Option α) (p : α → Bool)
    (hp : ∀ e e2, f e = some e2 → p e2 = p e) (l : List α)
    (hk : ∀ e ∈ l, p e = true → f e = some e) :
    (l.filterMap f).filter p = l.filter p := by
  induction l with
  | nil => rfl
  | cons e l ih =>
    have ih2 := ih (fun y hy => hk y (List.mem_cons_of_mem _ hy))
    rw [List.filterMap_cons, List.filter_cons]
    cases hpe : p e with
    | true =>
      rw [hk e (List.mem_cons_self _ _) hpe]
      simp only [if_true]
      rw [List.filter_cons, hpe, ih2]
      rfl
    | false =>
      cases hfe : f e with
      | none => simpa using ih2
      | some e2 =>
        simp only []
        rw [List.filter_cons, hp e e2 hfe, hpe]
        simpa using ih2

theorem textStep_path (h : Path) (s : String) (e e2 : Path × Props)
    (he : textStep h s e = some e2) :
    e2.1 = e.1 ∧ e2.2.id = e.2.id ∧ e2.2.tag = e.2.tag := by
  unfold textStep at he
  by_cases h1 : e.1 = h
  · simp only [h1, if_true, Option.some.injEq] at he
    subst he
    exact ⟨h1.symm, rfl, rfl⟩
  · by_cases h2 : h <:+ e.1
    · simp [h1, h2] at he
    · simp only [h1, h2, if_false, Option.some.injEq] at he
      subst he
      exact ⟨rfl, rfl, rfl⟩

theorem textStep_outside (h : Path) (s : String) (e : Path × Props) (ho : ¬ h <:+ e.1) :
    textStep h s e = some e := by
  unfold textStep
  have h1 : ¬ e.1 = h := fun heq => ho (heq ▸ List.suffix_refl _)
  simp [h1, ho]

/-- The elements after the assignment `h.innerText = s`. -/
theorem elems_setText (h : Path) (s : String) (t : Forest) (ctx : Path) (k : Nat)
    (hctx : ¬ h <:+ ctx) :
    (t.setText h s ctx k).elems ctx k = (t.elems ctx k).filterMap (textStep h s) := by
  induction t generalizing ctx k with
  | nil => rfl
  | cons a ch sib ihc ihs =>
    by_cases hk : k :: ctx = h
    · subst hk
      have hch : (ch.elems (k :: ctx) 0).filterMap (textStep (k :: ctx) s) = [] := by
        rw [List.filterMap_eq_nil_iff]
        intro e he
        obtain ⟨pre, j, hj, _⟩ := path_of_mem_elems ch (k :: ctx) 0 e he
        have hne := head_not_mem_children ch ctx k e he
        have hsuf : k :: ctx <:+ e.1 := by
          rw [hj]
          exact ⟨pre ++ [j], by simp⟩
        unfold textStep
        simp [hne, hsuf]
      have hself : textStep (k :: ctx) s (k :: ctx, a)
          = some (k :: ctx, { a with innerText := s }) := by
        simp [textStep]
      simp only [Forest.setText, if_true, Forest.elems, List.nil_append,
        List.filterMap_cons, List.filterMap_append, hch, ihs ctx (k + 1) hctx, hself]
    · have hn : ¬ h <:+ k :: ctx := by
        intro hs
        rcases List.suffix_cons_iff.mp hs with h1 | h1
        · exact hk h1.symm
        · exact hctx h1
      simp only [Forest.setText, hk, if_false, Forest.elems, List.filterMap_cons,
        List.filterMap_append, ihc (k :: ctx) 0 hn, ihs ctx (k + 1) hctx]
      rw [textStep_outside h s (k :: ctx, a) hn]

theorem elements_setInnerText (d : Forest) (h : Path) (s : String) (hne : h ≠ []) :
    elements (setInnerText d h s) = (elements d).filterMap (textStep h s) :=
  elems_setText h s d [] 0 (fun hs => hne (List.suffix_nil.mp hs))

theorem propsAt_setInnerText_outside (d : Forest) (h : Path) (s : String) (q : Path)
    (hne : h ≠ []) (ho : ¬ h <:+ q) : propsAt (setInnerText d h s) q = propsAt d q := by
  unfold propsAt
  rw [elements_setInnerText d h s hne]
  have hp : ∀ e e2 : Path × Props, textStep h s e = some e2 → (e2.1 == q) = (e.1 == q) := by
    intro e e2 he
    rw [(textStep_path h s e e2 he).1]
  cases hf : (elements d).find? (fun e => e.1 == q) with
  | none => rw [find_filterMap_none (textStep h s) _ hp _ hf]
  | some x =>
    have hx : x.1 = q := by simpa using List.find?_some hf
    rw [find_filterMap_some (textStep h s) _ hp _ x x hf
      (textStep_outside h s x (by rw [hx]; exact ho))]

theorem getElementById_setInnerText_outside (d : Forest) (h : Path) (s : String) (x : String)
    (q : Path) (hne : h ≠ []) (ho : ¬ h <:+ q) (hq : getElementById d x = some q) :
    getElementById (setInnerText d h s) x = some q := by
  unfold getElementById at hq ⊢
  rw [elements_setInnerText d h s hne]
  have hp : ∀ e e2 : Path × Props, textStep h s e = some e2 →
      (e2.2.id == x) = (e.2.id == x) := by
    intro e e2 he
    rw [(textStep_path h s e e2 he).2.1]
  cases hf : (elements d).find? (fun e => e.2.id == x) with
  | none => simp [hf] at hq
  | some y =>
    simp only [hf, Option.map_some', Option.some.injEq] at hq
    rw [find_filterMap_some (textStep h s) _ hp _ y y hf
      (textStep_outside h s y (by rw [hq]; exact ho))]
    simp [hq]

theorem getElementById_setInnerText_inside (d : Forest) (h : Path) (s : String) (x : String)
    (q : Path) (hne : h ≠ []) (hin : h <:+ q) (hqh : q ≠ h)
    (hc : (elements d).countP (fun e => e.2.id == x) ≤ 1) (hq : getElementById d x = some q) :
    getElementById (setInnerText d h s) x = none := by
  unfold getElementById at hq ⊢
  rw [elements_setInnerText d h s hne]
  have hp : ∀ e e2 : Path × Props, textStep h s e = some e2 →
      (e2.2.id == x) = (e.2.id == x) := by
    intro e e2 he
    rw [(textStep_path h s e e2 he).2.1]
  cases hf : (elements d).find? (fun e => e.2.id == x) with
  | none => simp [hf] at hq
  | some y =>
    simp only [hf, Option.map_some', Option.some.injEq] at hq
    have hy : textStep h s y = none := by
      unfold textStep
      rw [hq]
      simp [hqh, hin]
    rw [find_filterMap_unique (textStep h s) _ hp _ y hc hf hy]
    rfl

theorem not_suffix_child (h ft : Path) (j : Nat) (h1 : ¬ h <:+ ft) (h2 : ¬ ft <:+ h) :
    ¬ h <:+ j :: ft := by
  intro hs
  rcases List.suffix_cons_iff.mp hs with h3 | h3
  · exact h2 (h3 ▸ List.suffix_cons j ft)
  · exact h1 h3

theorem not_suffix_grandchild (h ft : Path) (j j2 : Nat) (h1 : ¬ h <:+ ft) (h2 : ¬ ft <:+ h) :
    ¬ h <:+ j :: j2 :: ft := by
  intro hs
  rcases List.suffix_cons_iff.mp hs with h3 | h3
  · exact h2 (h3 ▸ (List.suffix_cons j2 ft).trans (List.suffix_cons j (j2 :: ft)))
  · exact not_suffix_child h ft j2 h1 h2 h3

theorem isOptionOf_setInnerText (d : Forest) (h : Path) (s : String) (ft q : Path)
    (hne : h ≠ []) (h1 : ¬ h <:+ ft) (h2 : ¬ ft <:+ h) :
    isOptionOf (setInnerText d h s) ft q = isOptionOf d ft q := by
  cases q with
  | nil => rfl
  | cons j r =>
    cases r with
    | nil => rfl
    | cons j2 r2 =>
      simp only [isOptionOf]
      by_cases hr : r2 = ft
      · subst hr
        rw [propsAt_setInnerText_outside d h s (j2 :: r2) hne (not_suffix_child h r2 j2 h1 h2)]
      · have hb : (r2 == ft) = false := by simpa using hr
        simp [hb]

theorem isOptionOf_path (d : Forest) (ft q : Path) (hq : isOptionOf d ft q = true) :
    (∃ j, q = j :: ft) ∨ ∃ j j2, q = j :: j2 :: ft := by
  cases q with
  | nil => simp [isOptionOf] at hq
  | cons j r =>
    cases r with
    | nil =>
      simp only [isOptionOf, Bool.or_false, beq_iff_eq] at hq
      exact Or.inl ⟨j, by rw [hq]⟩
    | cons j2 r2 =>
      simp only [isOptionOf, Bool.or_eq_true, Bool.and_eq_true, beq_iff_eq] at hq
      rcases hq with hq | ⟨hq, _⟩
      · exact Or.inl ⟨j, by rw [hq]⟩
      · exact Or.inr ⟨j, j2, by rw [hq]⟩

theorem listOfOptions_setInnerText (d : Forest) (h : Path) (s : String) (ft : Path)
    (hne : h ≠ []) (h1 : ¬ h <:+ ft) (h2 : ¬ ft <:+ h) :
    listOfOptions (setInnerText d h s) ft = listOfOptions d ft := by
  unfold listOfOptions
  have hP : (fun e : Path × Props => e.2.tag == "option" && isOptionOf (setInnerText d h s) ft e.1)
      = fun e => e.2.tag == "option" && isOptionOf d ft e.1 := by
    funext e
    rw [isOptionOf_setInnerText d h s ft e.1 hne h1 h2]
  rw [hP, elements_setInnerText d h s hne]
  apply filter_filterMap
  · intro e e2 he
    obtain ⟨p1, _, p3⟩ := textStep_path h s e e2 he
    rw [p1, p3]
  · intro e _ hpe
    simp only [Bool.and_eq_true] at hpe
    apply textStep_outside
    rcases isOptionOf_path d ft e.1 hpe.2 with ⟨j, hj⟩ | ⟨j, j2, hj⟩
    · rw [hj]
      exact not_suffix_child h ft j h1 h2
    · rw [hj]
      exact not_suffix_grandchild h ft j j2 h1 h2

/-- The value of an element is not affected by a text written on an element
that is neither the element itself, nor inside it, nor around it. -/
theorem valueOf_setInnerText (d : Forest) (h : Path) (s : String) (ft : Path)
    (hne : h ≠ []) (h1 : ¬ h <:+ ft) (h2 : ¬ ft <:+ h) :
    valueOf (setInnerText d h s) ft = valueOf d ft := by
  unfold valueOf
  rw [propsAt_setInnerText_outside d h s ft hne h1, listOfOptions_setInnerText d h s ft hne h1 h2]

theorem isOptionOf_mapProps (g : Path → Props → Props) (hg : ∀ q a, (g q a).tag = a.tag)
    (d : Forest) (ft q : Path) : isOptionOf (d.mapProps g [] 0) ft q = isOptionOf d ft q := by
  cases q with
  | nil => rfl
  | cons j r =>
    cases r with
    | nil => rfl
    | cons j2 r2 =>
      simp only [isOptionOf, propsAt_mapProps]
      cases propsAt d (j2 :: r2) with
      | none => rfl
      | some a => simp [hg]

theorem listOfOptions_mapProps (g : Path → Props → Props) (hg : ∀ q a, (g q a).tag = a.tag)
    (d : Forest) (ft : Path) :
    listOfOptions (d.mapProps g [] 0) ft
      = (listOfOptions d ft).map (fun e => (e.1, g e.1 e.2)) := by
  unfold listOfOptions
  rw [elements_mapProps, List.filter_map]
  congr 2
  funext e
  simp [isOptionOf_mapProps g hg, hg]

/-- The value of an element is not affected by assignments to other
properties than the tag, the value, the selectedness and the text. -/
theorem valueOf_mapProps (g : Path → Props → Props)
    (hg : ∀ q a, (g q a).tag = a.tag ∧ (g q a).value = a.value ∧
      (g q a).selected = a.selected ∧ (g q a).innerText = a.innerText)
    (d : Forest) (ft : Path) : valueOf (d.mapProps g [] 0) ft = valueOf d ft := by
  unfold valueOf
  rw [propsAt_mapProps, listOfOptions_mapProps g (fun q a => (hg q a).1), List.find?_map]
  have hsel : ((fun e : Path × Props => e.2.selected) ∘
      fun e : Path × Props => (e.1, g e.1 e.2)) = fun e => e.2.selected := by
    funext e
    simp [(hg e.1 e.2).2.2.1]
  rw [hsel]
  cases propsAt d ft with
  | none => rfl
  | some a =>
    simp only [Option.map_some', (hg ft a).1]
    have hov : ∀ q b, optionValue (g q b) = optionValue b := by
      intro q b
      simp [optionValue, (hg q b).2.1, (hg q b).2.2.2]
    cases (listOfOptions d ft).find? (fun e => e.2.selected) with
    | none => simp [hov, (hg ft a).2.1]
    | some e => simp [hov, (hg ft a).2.1]

theorem valueOf_setSubFieldsVisible (d : Forest) (v : Bool) (ft : Path) :
    valueOf (setSubFieldsVisible d v) ft = valueOf d ft := by
  rw [setSubFieldsVisible_eq]
  apply valueOf_mapProps
  intro q a
  simp [restyle]

theorem countP_id_mapProps (g : Path → Props → Props) (hg : Cosmetic g) (d : Forest)
    (x : String) :
    (elements (d.mapProps g [] 0)).countP (fun e => e.2.id == x)
      = (elements d).countP (fun e => e.2.id == x) := by
  rw [elements_mapProps, List.countP_map]
  congr 1
  funext e
  simp [(hg e.1 e.2).2.1]
/-! ## Part VIII. Appending the hint node -/

theorem id_append_ne_hint (f : String) : "id_" ++ f ≠ "fee_type_hint" := by
  intro h
  have := congrArg String.data h
  simp at this

theorem elems_snoc (new : Props) (t : Forest) (ctx : Path) (k : Nat) :
    ∃ np, (t.snoc new).elems ctx k = t.elems ctx k ++ [(np, new)] := by
  induction t generalizing k with
  | nil => exact ⟨k :: ctx, by simp [Forest.snoc, Forest.elems]⟩
  | cons b ch sib _ ihs =>
    obtain ⟨np, hnp⟩ := ihs (k + 1)
    exact ⟨np, by simp [Forest.snoc, Forest.elems, hnp]⟩

theorem appendAt_of_not_mem (target : Path) (new : Props) (t : Forest) (ctx : Path) (k : Nat)
    (h : ∀ e ∈ t.elems ctx k, e.1 ≠ target) : t.appendAt target new ctx k = t := by
  induction t generalizing ctx k with
  | nil => rfl
  | cons a ch sib ihc ihs =>
    simp only [Forest.elems, List.mem_cons, List.mem_append] at h
    have hk : ¬ k :: ctx = target := h (k :: ctx, a) (Or.inl rfl)
    simp only [Forest.appendAt, hk, if_false,
      ihc _ _ (fun e he => h e (Or.inr (Or.inl he))),
      ihs _ _ (fun e he => h e (Or.inr (Or.inr he)))]

/-- Appending a child to an element of the forest inserts exactly one entry in
the list of elements. -/
theorem elems_appendAt (target : Path) (new : Props) (t : Forest) (ctx : Path) (k : Nat)
    (a : Props) (h : (target, a) ∈ t.elems ctx k) :
    ∃ l1 l2 np, t.elems ctx k = l1 ++ l2 ∧
      (t.appendAt target new ctx k).elems ctx k = l1 ++ (np, new) :: l2 := by
  induction t generalizing ctx k with
  | nil => simp [Forest.elems] at h
  | cons a0 ch sib ihc ihs =>
    simp only [Forest.elems, List.mem_cons, List.mem_append] at h
    rcases h with h | h | h
    · have hk : k :: ctx = target := by
        simp only [Prod.mk.injEq] at h
        exact h.1.symm
      have hs : sib.appendAt target new ctx (k + 1) = sib :=
        appendAt_of_not_mem _ _ _ _ _
          (fun e he => hk ▸ head_not_mem_siblings sib ctx k e he)
      obtain ⟨np, hnp⟩ := elems_snoc new ch (k :: ctx) 0
      refine ⟨(k :: ctx, a0) :: ch.elems (k :: ctx) 0, sib.elems ctx (k + 1), np, ?_, ?_⟩
      · simp [Forest.elems]
      · simp [Forest.appendAt, hk, hs, Forest.elems]
        rw [← hk, hnp]
        simp
    · have hk : ¬ k :: ctx = target := fun e =>
        head_not_mem_children ch ctx k _ h e.symm
      have hs : sib.appendAt target new ctx (k + 1) = sib :=
        appendAt_of_not_mem _ _ _ _ _
          (fun e he heq => children_not_mem_siblings ch sib ctx k _ e h he heq.symm)
      obtain ⟨l1, l2, np, h1, h2⟩ := ihc _ _ h
      refine ⟨(k :: ctx, a0) :: l1, l2 ++ sib.elems ctx (k + 1), np, ?_, ?_⟩
      · simp [Forest.elems, h1]
      · simp [Forest.appendAt, hk, hs, Forest.elems, h2]
    · have hk : ¬ k :: ctx = target := fun e =>
        head_not_mem_siblings sib ctx k _ h e.symm
      have hc : ch.appendAt target new (k :: ctx) 0 = ch :=
        appendAt_of_not_mem _ _ _ _ _
          (fun e he heq => children_not_mem_siblings ch sib ctx k e _ he h heq)
      obtain ⟨l1, l2, np, h1, h2⟩ := ihs _ _ h
      refine ⟨(k :: ctx, a0) :: (ch.elems (k :: ctx) 0 ++ l1), l2, np, ?_, ?_⟩
      · simp [Forest.elems, h1]
      · simp [Forest.appendAt, hk, hc, Forest.elems, h2]

theorem elements_appendChild (d : Forest) (c : Path) (new a : Props)
    (hc : propsAt d c = some a) :
    ∃ l1 l2 np, elements d = l1 ++ l2 ∧
      elements (appendChild d c new) = l1 ++ (np, new) :: l2 ∧
      ∀ e ∈ elements d, e.1 ≠ np := by
  obtain ⟨l1, l2, np, h1, h2⟩ := elems_appendAt c new d [] 0 a (mem_of_propsAt d c a hc)
  refine ⟨l1, l2, np, h1, h2, ?_⟩
  have hnd := nodup_paths (d.appendAt c new [] 0) [] 0
  rw [h2] at hnd
  simp only [List.map_append, List.map_cons] at hnd
  have hnot := (List.nodup_middle.mp hnd)
  simp only [List.nodup_cons, List.mem_append, List.mem_map, not_or, not_exists, not_and] at hnot
  intro e he heq
  unfold elements at he
  rw [h1, List.mem_append] at he
  rcases he with he | he
  · exact hnot.1.1 e he heq
  · exact hnot.1.2 e he heq

theorem countP_appendChild (d : Forest) (c : Path) (new a : Props) (Q : Props → Bool)
    (hc : propsAt d c = some a) :
    (elements (appendChild d c new)).countP (fun e => Q e.2)
      = (elements d).countP (fun e => Q e.2) + (if Q new then 1 else 0) := by
  obtain ⟨l1, l2, np, h1, h2, _⟩ := elements_appendChild d c new a hc
  rw [h1, h2]
  simp only [List.countP_append, List.countP_cons]
  omega

theorem find_appendChild (d : Forest) (c : Path) (new a : Props) (Q : Props → Bool)
    (hc : propsAt d c = some a) (hQ : Q new = false) :
    (elements (appendChild d c new)).find? (fun e => Q e.2)
      = (elements d).find? (fun e => Q e.2) := by
  obtain ⟨l1, l2, np, h1, h2, _⟩ := elements_appendChild d c new a hc
  rw [h1, h2]
  simp [List.find?_append, List.find?_cons, hQ]

theorem getElementById_appendChild (d : Forest) (c : Path) (new a : Props) (x : String)
    (hc : propsAt d c = some a) (hx : new.id ≠ x) :
    getElementById (appendChild d c new) x = getElementById d x := by
  unfold getElementById
  rw [find_appendChild d c new a (fun b => b.id == x) hc (by simpa using hx)]

theorem querySelector_appendChild (d : Forest) (c : Path) (new a : Props) (sel : Selector)
    (hc : propsAt d c = some a) (hx : sel.test new = false) :
    querySelector (appendChild d c new) sel = querySelector d sel := by
  unfold querySelector
  rw [find_appendChild d c new a (fun b => sel.test b) hc hx]

theorem getElementById_appendChild_new (d : Forest) (c : Path) (new a : Props)
    (hc : propsAt d c = some a) (hn : getElementById d new.id = none) :
    ∃ np, getElementById (appendChild d c new) new.id = some np ∧
      propsAt (appendChild d c new) np = some new := by
  obtain ⟨l1, l2, np, h1, h2, _⟩ := elements_appendChild d c new a hc
  refine ⟨np, ?_, ?_⟩
  · unfold getElementById at hn ⊢
    rw [h1] at hn
    simp only [Option.map_eq_none', List.find?_append, Option.or_eq_none] at hn
    rw [h2]
    simp [List.find?_append, List.find?_cons, hn.1]
  · apply propsAt_of_mem
    rw [h2]
    simp

theorem propsAt_appendChild (d : Forest) (c : Path) (new a : Props) (q : Path) (b : Props)
    (hc : propsAt d c = some a) (hq : propsAt d q = some b) :
    propsAt (appendChild d c new) q = some b := by
  obtain ⟨l1, l2, np, h1, h2, _⟩ := elements_appendChild d c new a hc
  apply propsAt_of_mem
  have := mem_of_propsAt d q b hq
  rw [h1, List.mem_append] at this
  rw [h2]
  simp only [List.mem_append, List.mem_cons]
  tauto

theorem closest_appendChild (d : Forest) (c : Path) (new a : Props) (sel : Selector)
    (hc : propsAt d c = some a) (q : Path) (b : Props) (hq : propsAt d q = some b) :
    closest (appendChild d c new) sel q = closest d sel q := by
  induction q generalizing b with
  | nil => rfl
  | cons m p ih =>
    simp only [closest]
    rw [propsAt_appendChild d c new a (m :: p) b hc hq]
    have hrec : closest (appendChild d c new) sel p = closest d sel p := by
      rcases parent_mem_elems d [] 0 m p b (mem_of_propsAt d _ b hq) with h1 | ⟨b2, hb2⟩
      · subst h1
        rfl
      · exact ih b2 (propsAt_of_mem d p b2 hb2)
    rw [hrec, hq]

theorem childrenAt_appendAt (target : Path) (new : Props) (t : Forest) (ctx : Path) (k : Nat) :
    (t.appendAt target new ctx k).childrenAt target ctx k
      = (t.childrenAt target ctx k).map (fun ch => ch.snoc new) := by
  induction t generalizing ctx k with
  | nil => rfl
  | cons a ch sib ihc ihs =>
    by_cases hk : k :: ctx = target
    · simp [Forest.appendAt, Forest.childrenAt, hk]
    · simp only [Forest.appendAt, Forest.childrenAt, hk, if_false, ihc, ihs]
      cases Forest.childrenAt target (k :: ctx) 0 ch <;> simp [Option.orElse]

theorem hintsAreLeaves_of_no_hint (t : Forest) (ctx : Path) (k : Nat)
    (h : ∀ e ∈ t.elems ctx k, e.2.id ≠ "fee_type_hint") : t.hintsAreLeaves = true := by
  induction t generalizing ctx k with
  | nil => rfl
  | cons a ch sib ihc ihs =>
    simp only [Forest.elems, List.mem_cons, List.mem_append] at h
    have ha : a.id ≠ "fee_type_hint" := h (k :: ctx, a) (Or.inl rfl)
    simp [Forest.hintsAreLeaves, ha, ihc _ _ (fun e he => h e (Or.inr (Or.inl he))),
      ihs _ _ (fun e he => h e (Or.inr (Or.inr he)))]

theorem hintsAreLeaves_snoc (new : Props) (t : Forest) (ctx : Path) (k : Nat)
    (h : ∀ e ∈ t.elems ctx k, e.2.id ≠ "fee_type_hint") : (t.snoc new).hintsAreLeaves = true := by
  induction t generalizing k with
  | nil => simp [Forest.snoc, Forest.hintsAreLeaves, Forest.isEmpty]
  | cons a ch sib _ ihs =>
    simp only [Forest.elems, List.mem_cons, List.mem_append] at h
    have ha : a.id ≠ "fee_type_hint" := h (k :: ctx, a) (Or.inl rfl)
    simp [Forest.snoc, Forest.hintsAreLeaves, ha,
      hintsAreLeaves_of_no_hint ch (k :: ctx) 0 (fun e he => h e (Or.inr (Or.inl he))),
      ihs _ (fun e he => h e (Or.inr (Or.inr he)))]

theorem hintsAreLeaves_appendAt (target : Path) (new : Props) (t : Forest) (ctx : Path)
    (k : Nat) (h : ∀ e ∈ t.elems ctx k, e.2.id ≠ "fee_type_hint") :
    (t.appendAt target new ctx k).hintsAreLeaves = true := by
  induction t generalizing ctx k with
  | nil => rfl
  | cons a ch sib ihc ihs =>
    simp only [Forest.elems, List.mem_cons, List.mem_append] at h
    have ha : a.id ≠ "fee_type_hint" := h (k :: ctx, a) (Or.inl rfl)
    have h1 := ihc (k :: ctx) 0 (fun e he => h e (Or.inr (Or.inl he)))
    have h2 := ihs ctx (k + 1) (fun e he => h e (Or.inr (Or.inr he)))
    have h3 := hintsAreLeaves_snoc new ch (k :: ctx) 0 (fun e he => h e (Or.inr (Or.inl he)))
    by_cases hk : k :: ctx = target
    · simp [Forest.appendAt, Forest.hintsAreLeaves, ha, hk, h2, h3]
    · simp [Forest.appendAt, Forest.hintsAreLeaves, ha, hk, h1, h2]

/-! ## Part IX. The hint node is created once -/

theorem feeTypeContainer_some (d : Forest) (c : Path) (h : feeTypeContainer d = some c) :
    ∃ a, propsAt d c = some a := by
  unfold feeTypeContainer at h
  cases hq : querySelector d (.cls "field-fee_type") with
  | some c2 =>
    simp only [hq, Option.orElse, Option.some.injEq] at h
    subst h
    obtain ⟨a, ha, _⟩ := querySelector_some d _ _ hq
    exact ⟨a, ha⟩
  | none =>
    simp only [hq, Option.orElse] at h
    cases hi : getElementById d "id_fee_type" with
    | none => simp [hi] at h
    | some i =>
      simp only [hi, Option.bind] at h
      obtain ⟨a, ha, _⟩ := closest_some d _ _ _ h
      exact ⟨a, ha⟩

theorem getElementById_none_iff (d : Forest) (x : String) :
    getElementById d x = none ↔ (elements d).countP (fun e => e.2.id == x) = 0 := by
  unfold getElementById
  simp [List.countP_eq_zero]

theorem ensureHint_of_hint (d : Forest) (h : Path)
    (hh : getElementById d "fee_type_hint" = some h) : ensureHint d = d := by
  unfold ensureHint
  cases feeTypeContainer d <;> simp [hh]

theorem ensureHint_new (d : Forest) (c : Path) (hc : feeTypeContainer d = some c)
    (hh : getElementById d "fee_type_hint" = none) :
    ensureHint d = appendChild d c hintElement := by
  unfold ensureHint
  simp [hc, hh]

theorem getElementById_ensureHint_new (d : Forest) (c : Path) (hc : feeTypeContainer d = some c)
    (hh : getElementById d "fee_type_hint" = none) :
    ∃ np, getElementById (ensureHint d) "fee_type_hint" = some np ∧
      propsAt (ensureHint d) np = some hintElement := by
  obtain ⟨a, ha⟩ := feeTypeContainer_some d c hc
  rw [ensureHint_new d c hc hh]
  exact getElementById_appendChild_new d c hintElement a ha hh

theorem ensureHint_ensureHint (d : Forest) : ensureHint (ensureHint d) = ensureHint d := by
  cases hc : feeTypeContainer d with
  | none =>
    have : ensureHint d = d := by simp [ensureHint, hc]
    rw [this, this]
  | some c =>
    cases hh : getElementById d "fee_type_hint" with
    | some h => rw [ensureHint_of_hint d h hh, ensureHint_of_hint d h hh]
    | none =>
      obtain ⟨np, hnp, _⟩ := getElementById_ensureHint_new d c hc hh
      exact ensureHint_of_hint _ np hnp

theorem countHints_ensureHint_new (d : Forest) (c : Path) (hc : feeTypeContainer d = some c)
    (hh : countHints d = 0) : countHints (ensureHint d) = 1 := by
  obtain ⟨a, ha⟩ := feeTypeContainer_some d c hc
  have hn : getElementById d "fee_type_hint" = none := (getElementById_none_iff d _).mpr hh
  rw [ensureHint_new d c hc hn]
  unfold countHints at hh ⊢
  rw [countP_appendChild d c hintElement a (fun b => b.id == "fee_type_hint") ha, hh]
  rfl

theorem childrenAt_isSome (target : Path) (t : Forest) (ctx : Path) (k : Nat) (a : Props)
    (h : (target, a) ∈ t.elems ctx k) : (t.childrenAt target ctx k).isSome = true := by
  induction t generalizing ctx k with
  | nil => simp [Forest.elems] at h
  | cons a0 ch sib ihc ihs =>
    simp only [Forest.elems, List.mem_cons, List.mem_append] at h
    by_cases hk : k :: ctx = target
    · simp [Forest.childrenAt, hk]
    · rcases h with h | h | h
      · simp only [Prod.mk.injEq] at h
        exact absurd h.1.symm hk
      · have := ihc _ _ h
        simp only [Forest.childrenAt, hk, if_false]
        cases hch : Forest.childrenAt target (k :: ctx) 0 ch with
        | none => simp [hch] at this
        | some x => simp [Option.orElse]
      · have := ihs _ _ h
        simp only [Forest.childrenAt, hk, if_false]
        cases hch : Forest.childrenAt target (k :: ctx) 0 ch with
        | none => simpa [Option.orElse] using this
        | some x => simp [Option.orElse]

theorem countHints_mapProps (g : Path → Props → Props) (hg : Cosmetic g) (d : Forest) :
    countHints (d.mapProps g [] 0) = countHints d := by
  unfold countHints
  rw [elements_mapProps, List.countP_map]
  congr 1
  funext e
  simp [(hg e.1 e.2).2.1]

theorem countHints_setVisible (d : Forest) (f : String) (v : Bool) :
    countHints (setVisible d f v) = countHints d := by
  rw [setVisible_eq, countHints_mapProps _ (restyle_cosmetic _ _ _)]

theorem countHints_setSubFieldsVisible (d : Forest) (v : Bool) :
    countHints (setSubFieldsVisible d v) = countHints d := by
  rw [setSubFieldsVisible_eq, countHints_mapProps _ (restyle_cosmetic _ _ _)]

theorem selectValue_eq (d : Forest) (v : String) :
    ∃ g, Cosmetic g ∧ (∀ q b, (g q b).display = b.display ∧ (g q b).disabled = b.disabled) ∧
      selectValue d v = d.mapProps g [] 0 := by
  have hid : ∃ g, Cosmetic g ∧
      (∀ q b, (g q b).display = b.display ∧ (g q b).disabled = b.disabled) ∧
      d = d.mapProps g [] 0 :=
    ⟨fun _ a => a, fun _ _ => ⟨rfl, rfl, rfl⟩, fun _ _ => ⟨rfl, rfl⟩, (mapProps_id d [] 0).symm⟩
  unfold selectValue
  cases getElementById d "id_fee_type" with
  | none => exact hid
  | some ft =>
    simp only []
    by_cases hs : (propsAt d ft).any (fun a => a.tag == "select") = true
    · rw [if_pos hs]
      cases (listOfOptions d ft).find? (fun e => optionValue e.2 == v) with
      | none => exact hid
      | some picked =>
        refine ⟨_, ?_, ?_, rfl⟩
        · intro q a
          by_cases h : (listOfOptions d ft).any (fun e => e.1 == q) = true
          · simp [h]
          · simp [h]
        · intro q a
          by_cases h : (listOfOptions d ft).any (fun e => e.1 == q) = true
          · simp [h]
          · simp [h]
    · rw [if_neg hs]
      refine ⟨fun q a => if q = ft then { a with value := some v } else a, ?_, ?_, rfl⟩
      · intro q a
        by_cases h : q = ft <;> simp [h]
      · intro q a
        by_cases h : q = ft <;> simp [h]

theorem countHints_selectValue (d : Forest) (v : String) :
    countHints (selectValue d v) = countHints d := by
  obtain ⟨g, hg, _, he⟩ := selectValue_eq d v
  rw [he, countHints_mapProps g hg]

theorem countHints_apply_le (d : Forest) : countHints (apply d) ≤ countHints d := by
  unfold apply
  cases getElementById d "id_fee_type" with
  | none => exact le_refl _
  | some ft =>
    simp only []
    cases getElementById (setSubFieldsVisible d
        (valueOf d ft == some "subscription")) "fee_type_hint" with
    | none => simp [countHints_setSubFieldsVisible]
    | some h =>
      simp only []
      calc countHints (setInnerText _ h _)
          ≤ countHints (setSubFieldsVisible d
              (valueOf d ft == some "subscription")) :=
            countP_setText_le h _ "fee_type_hint" _ [] 0
        _ = countHints d := countHints_setSubFieldsVisible d _

theorem countHints_ensureHint_le (d : Forest) (h : countHints d ≤ 1) :
    countHints (ensureHint d) ≤ 1 := by
  cases hc : feeTypeContainer d with
  | none =>
    have : ensureHint d = d := by simp [ensureHint, hc]
    rw [this]
    exact h
  | some c =>
    cases hh : getElementById d "fee_type_hint" with
    | some p =>
      rw [ensureHint_of_hint d p hh]
      exact h
    | none =>
      rw [countHints_ensureHint_new d c hc ((getElementById_none_iff d _).mp hh)]

theorem countHints_run_le (op : Op) (d : Forest) (h : countHints d ≤ 1) :
    countHints (op.run d) ≤ 1 := by
  cases op with
  | setVisible f v => simpa [Op.run, countHints_setVisible] using h
  | setSubFieldsVisible v => simpa [Op.run, countHints_setSubFieldsVisible] using h
  | ensureHint => exact countHints_ensureHint_le d h
  | apply => exact le_trans (countHints_apply_le d) h
  | load =>
    exact le_trans (countHints_apply_le _) (countHints_ensureHint_le d h)
  | change v =>
    exact le_trans (countHints_apply_le _) (by rw [countHints_selectValue]; exact h)

theorem countHints_runAll_le (ops : List Op) (d : Forest) (h : countHints d ≤ 1) :
    countHints (runAll ops d) ≤ 1 := by
  induction ops generalizing d with
  | nil => exact h
  | cons op ops ih => exact ih _ (countHints_run_le op d h)

/-- C8 as stated fails: on a page where the container of the discriminator
cannot be resolved, two calls of `ensureHint` leave the document without any
hint node. -/
theorem ensureHint_without_container :
    feeTypeContainer barePage = none ∧
    ensureHint (ensureHint barePage) = barePage ∧
    countHints (ensureHint (ensureHint barePage)) = 0 := by
  decide

/-- C8, amended: `ensureHint()` is idempotent on every page; when the
container of the discriminator resolves and the page has no hint node, the
page after `ensureHint()` contains exactly one hint node, added after the last
child of that container; when the container does not resolve, or a hint node
exists, the page is unchanged; and from a page without hint node every
sequence of operations leads to a page with at most one hint node. -/
theorem ensureHint_idempotent (d : Forest) :
    ensureHint (ensureHint d) = ensureHint d ∧
    (∀ c, feeTypeContainer d = some c → countHints d = 0 →
      countHints (ensureHint d) = 1 ∧
      (childNodes d c).isSome = true ∧
      childNodes (ensureHint d) c = (childNodes d c).map (fun ch => ch.snoc hintElement)) ∧
    (feeTypeContainer d = none → ensureHint d = d) ∧
    (0 < countHints d → ensureHint d = d) ∧
    (∀ ops, countHints d = 0 → countHints (runAll ops d) ≤ 1) := by
  refine ⟨ensureHint_ensureHint d, ?_, ?_, ?_, ?_⟩
  · intro c hc h0
    obtain ⟨a, ha⟩ := feeTypeContainer_some d c hc
    refine ⟨countHints_ensureHint_new d c hc h0,
      childrenAt_isSome c d [] 0 a (mem_of_propsAt d c a ha), ?_⟩
    rw [ensureHint_new d c hc ((getElementById_none_iff d _).mpr h0)]
    exact childrenAt_appendAt c hintElement d [] 0
  · intro hc
    simp [ensureHint, hc]
  · intro hpos
    cases hh : getElementById d "fee_type_hint" with
    | some h => exact ensureHint_of_hint d h hh
    | none =>
      have := (getElementById_none_iff d _).mp hh
      unfold countHints at hpos
      omega
  · intro ops h0
    exact countHints_runAll_le ops d (by omega)

/-- Witness for C8: the two-field page has a wrapper for the selector and no
hint node. -/
theorem ensureHint_idempotent_witness :
    countHints (ensureHint (twoFieldPage "membership")) = 1 ∧
    (childNodes (twoFieldPage "membership") [0, 0, 0]).isSome = true ∧
    childNodes (ensureHint (twoFieldPage "membership")) [0, 0, 0]
      = (childNodes (twoFieldPage "membership") [0, 0, 0]).map
          (fun ch => ch.snoc hintElement) :=
  (ensureHint_idempotent (twoFieldPage "membership")).2.1 [0, 0, 0] (by decide) (by decide)

/-! ## Part X. The effect of `apply` -/

theorem applyStyle_cosmetic (d : Forest) (v : Bool) : Cosmetic (applyStyle d v) := by
  intro q a
  unfold applyStyle
  by_cases h : getElementById d "fee_type_hint" = some q <;> simp [h, restyle]

theorem applyStyle_display (d : Forest) (v : Bool) (q : Path) (b : Props) :
    (applyStyle d v q b).display = (restyle (isSubContainer d) (isSubInput d) v q b).display ∧
    (applyStyle d v q b).disabled
      = (restyle (isSubContainer d) (isSubInput d) v q b).disabled := by
  unfold applyStyle
  by_cases h : getElementById d "fee_type_hint" = some q <;> simp [h]

theorem hintsAreLeaves_mapProps_top (g : Path → Props → Props) (hg : Cosmetic g) (d : Forest) :
    (d.mapProps g [] 0).hintsAreLeaves = d.hintsAreLeaves :=
  hintsAreLeaves_mapProps g hg d [] 0

/-- When no hint node has child elements, `apply` only changes properties. -/
theorem apply_eq_mapProps (d : Forest) (ft : Path)
    (hft : getElementById d "id_fee_type" = some ft) (hl : d.hintsAreLeaves = true) :
    apply d = d.mapProps (applyStyle d (valueOf d ft == some "subscription")) [] 0 := by
  unfold apply
  simp only [hft]
  rw [getElementById_setSubFieldsVisible]
  cases hh : getElementById d "fee_type_hint" with
  | none =>
    simp only []
    rw [setSubFieldsVisible_eq]
    congr 1
    funext q b
    simp [applyStyle, hh]
  | some h =>
    simp only []
    have hl1 : (setSubFieldsVisible d (valueOf d ft == some "subscription")).hintsAreLeaves
        = true := by
      rw [setSubFieldsVisible_eq, hintsAreLeaves_mapProps_top _ (restyle_cosmetic _ _ _)]
      exact hl
    have hh1 : getElementById (setSubFieldsVisible d (valueOf d ft == some "subscription"))
        "fee_type_hint" = some h := by
      rw [getElementById_setSubFieldsVisible, hh]
    rw [setInnerText_eq_update _ h _ hl1 hh1, setSubFieldsVisible_eq]
    unfold update
    rw [mapProps_mapProps]
    congr 1
    funext q b
    by_cases hq : q = h
    · subst hq
      simp [applyStyle, hh]
    · have hq2 : ¬ h = q := fun e => hq e.symm
      simp [applyStyle, hh, hq, hq2]

/-- On every page with a discriminator and a hint node, `apply` is the
restyling of the dependent fields followed by the assignment of the message
to the hint node found before. -/
theorem apply_eq_setInnerText (d : Forest) (ft h : Path)
    (hft : getElementById d "id_fee_type" = some ft)
    (hh : getElementById d "fee_type_hint" = some h) :
    apply d = setInnerText (setSubFieldsVisible d (valueOf d ft == some "subscription")) h
      (messageFor (valueOf d ft)) := by
  have hh1 : getElementById (setSubFieldsVisible d (valueOf d ft == some "subscription"))
      "fee_type_hint" = some h := by
    rw [getElementById_setSubFieldsVisible, hh]
  unfold apply
  simp only [hft, hh1, messageFor]
  by_cases hv : valueOf d ft = some "subscription" <;> simp [hv]

/-- The hint node found before `apply` is the hint node after it and carries
the message for the discriminator value, on every page. -/
theorem hintText_apply (d : Forest) (ft h : Path)
    (hft : getElementById d "id_fee_type" = some ft)
    (hh : getElementById d "fee_type_hint" = some h) :
    getElementById (apply d) "fee_type_hint" = some h ∧
    hintText (apply d) = some (messageFor (valueOf d ft)) := by
  have hh1 : getElementById (setSubFieldsVisible d (valueOf d ft == some "subscription"))
      "fee_type_hint" = some h := by
    rw [getElementById_setSubFieldsVisible, hh]
  obtain ⟨b, hb, _⟩ := getElementById_some _ _ h hh1
  have happ := apply_eq_setInnerText d ft h hft hh
  have hid := getElementById_setInnerText_self _ h (messageFor (valueOf d ft))
    "fee_type_hint" hh1
  refine ⟨by rw [happ, hid], ?_⟩
  unfold hintText
  rw [happ, hid]
  simp only [Option.bind]
  rw [propsAt_setInnerText_self _ h _ b hb]
  rfl

/-- A second `apply` finds the discriminator and reads the same value when the
hint node and the discriminator are not inside one another. -/
theorem valueOf_apply (d : Forest) (ft h : Path)
    (hft : getElementById d "id_fee_type" = some ft)
    (hh : getElementById d "fee_type_hint" = some h)
    (h1 : ¬ h <:+ ft) (h2 : ¬ ft <:+ h) :
    getElementById (apply d) "id_fee_type" = some ft ∧ valueOf (apply d) ft = valueOf d ft := by
  obtain ⟨b, hb, _⟩ := getElementById_some d _ h hh
  have hne : h ≠ [] := by
    intro e
    rw [e, propsAt_nil] at hb
    exact absurd hb (by simp)
  rw [apply_eq_setInnerText d ft h hft hh]
  constructor
  · apply getElementById_setInnerText_outside _ h _ _ ft hne h1
    rw [getElementById_setSubFieldsVisible, hft]
  · rw [valueOf_setInnerText _ h _ ft hne h1 h2, valueOf_setSubFieldsVisible]

/-- The first `apply` removes a discriminator that is inside the hint node;
when no other element has its id, the second `apply` finds none. -/
theorem getElementById_apply_inside (d : Forest) (ft h : Path)
    (hft : getElementById d "id_fee_type" = some ft)
    (hh : getElementById d "fee_type_hint" = some h) (hin : h <:+ ft)
    (hc : (elements d).countP (fun e => e.2.id == "id_fee_type") ≤ 1) :
    getElementById (apply d) "id_fee_type" = none := by
  obtain ⟨b, hb, hbid⟩ := getElementById_some d _ h hh
  obtain ⟨a, ha, haid⟩ := getElementById_some d _ ft hft
  have hne : h ≠ [] := by
    intro e
    rw [e, propsAt_nil] at hb
    exact absurd hb (by simp)
  have hfh : ft ≠ h := by
    intro e
    rw [e, hb] at ha
    simp only [Option.some.injEq] at ha
    rw [ha, haid] at hbid
    exact absurd hbid (by decide)
  rw [apply_eq_setInnerText d ft h hft hh]
  apply getElementById_setInnerText_inside _ h _ _ ft hne hin hfh
  · rw [setSubFieldsVisible_eq, countP_id_mapProps _ (restyle_cosmetic _ _ _)]
    exact hc
  · rw [getElementById_setSubFieldsVisible, hft]

/-- C6 as stated fails: on a page with one selector `id_fee_type` whose
selected option carries the id of the hint node and the text "subscription",
the value of the selector is "subscription" and the first `apply` writes the
subscription message into that option; the value of the selector is then
that message, and the second `apply` writes the membership message. -/
theorem apply_twice_differs :
    getElementById hintIsOptionPage "id_fee_type" = some [0, 0, 0] ∧
    (elements hintIsOptionPage).countP (fun e => e.2.id == "id_fee_type") = 1 ∧
    (getElementById hintIsOptionPage "fee_type_hint").isSome = true ∧
    countHints hintIsOptionPage = 1 ∧
    valueOf hintIsOptionPage [0, 0, 0] = some "subscription" ∧
    hintText (apply hintIsOptionPage) = some subscriptionMessage ∧
    valueOf (apply hintIsOptionPage) [0, 0, 0] = some subscriptionMessage ∧
    hintText (apply (apply hintIsOptionPage)) = some membershipMessage ∧
    hintText (apply (apply hintIsOptionPage)) ≠ hintText (apply hintIsOptionPage) := by
  decide

/-- C6, amended: on every page with a discriminator input of value `v` and a
hint node, the hint text after `apply()` is exactly the subscription message
when `v` is "subscription" and exactly the membership message otherwise,
whatever the text was before; and when the hint node is not inside the
discriminator element, and the discriminator is not inside the hint node or
is the only element with the id `id_fee_type`, the text after a second
`apply()` is the text after the first. -/
theorem apply_hint_text (d : Forest) (ft h : Path)
    (hft : getElementById d "id_fee_type" = some ft)
    (hh : getElementById d "fee_type_hint" = some h) :
    getElementById (apply d) "fee_type_hint" = some h ∧
    (valueOf d ft = some "subscription" → hintText (apply d) = some subscriptionMessage) ∧
    (valueOf d ft ≠ some "subscription" → hintText (apply d) = some membershipMessage) ∧
    (¬ ft <:+ h →
      (¬ h <:+ ft ∨ (elements d).countP (fun e => e.2.id == "id_fee_type") ≤ 1) →
      hintText (apply (apply d)) = hintText (apply d)) := by
  obtain ⟨h1, h2⟩ := hintText_apply d ft h hft hh
  refine ⟨h1, ?_, ?_, ?_⟩
  · intro hv
    rw [h2]
    simp [messageFor, hv]
  · intro hv
    rw [h2]
    simp [messageFor, hv]
  · intro hout hor
    by_cases hin : h <:+ ft
    · have hc : (elements d).countP (fun e => e.2.id == "id_fee_type") ≤ 1 := by
        rcases hor with hor | hor
        · exact absurd hin hor
        · exact hor
      have hnone := getElementById_apply_inside d ft h hft hh hin hc
      have : apply (apply d) = apply d := by
        generalize apply d = d2 at hnone ⊢
        simp [apply, hnone]
      rw [this]
    · obtain ⟨h3, h4⟩ := valueOf_apply d ft h hft hh hin hout
      rw [(hintText_apply (apply d) ft h h3 h1).2, h4, h2]

/-- Witness for C6: the fee form with the selector on "membership" and a stale
hint text. -/
theorem apply_hint_text_witness :
    getElementById (apply (feeFormPage "membership" "stale")) "fee_type_hint"
      = some [1, 0, 0, 0] ∧
    hintText (apply (feeFormPage "membership" "stale")) = some membershipMessage ∧
    hintText (apply (apply (feeFormPage "membership" "stale")))
      = hintText (apply (feeFormPage "membership" "stale")) :=
  have w := apply_hint_text (feeFormPage "membership" "stale") [0, 0, 0, 0] [1, 0, 0, 0]
    (by decide) (by decide)
  ⟨w.1, w.2.2.1 (by decide), w.2.2.2 (by decide) (Or.inl (by decide))⟩
/-! ## Part XI. Dependent fields after `apply` -/

/-- C5 as stated fails: on a page whose root element carries the id of a
dependent field, the discriminator and the four inputs exist, but the
container of that field does not resolve and `apply` leaves its input
enabled although the value is "membership"; and on a page where an element
with the id of the hint node wraps the dependent inputs, `apply` removes them
from the document. -/
theorem apply_leaves_input_enabled :
    (getElementById rootInputPage "id_fee_type" = some [0, 0, 0] ∧
      valueOf rootInputPage [0, 0, 0] = some "membership" ∧
      (∀ f ∈ SUB_FIELDS, (getElementById rootInputPage ("id_" ++ f)).isSome = true) ∧
      findFieldContainer rootInputPage "duration_months" = none ∧
      findFieldContainer (apply rootInputPage) "duration_months" = none ∧
      getElementById (apply rootInputPage) "id_duration_months" = some [0] ∧
      (propsAt (apply rootInputPage) [0]).map (fun a => a.disabled) = some false) ∧
    ((getElementById hintWrapsFieldsPage "id_fee_type").isSome = true ∧
      (∀ f ∈ SUB_FIELDS, (getElementById hintWrapsFieldsPage ("id_" ++ f)).isSome = true ∧
        (findFieldContainer hintWrapsFieldsPage f).isSome = true) ∧
      (∀ f ∈ SUB_FIELDS, getElementById (apply hintWrapsFieldsPage) ("id_" ++ f) = none)) := by
  decide

/-- C5, amended: on every page where the discriminator input exists with value
`v`, each of the four dependent fields has an input and a container that
resolves, and no element with the id of the hint node has child elements:
after `apply()` every dependent field has its container at the default
display and its input enabled when `v` is "subscription", and its container
at display "none" and its input disabled for every other `v`. -/
theorem apply_fields (d : Forest) (ft : Path)
    (hft : getElementById d "id_fee_type" = some ft)
    (hres : ∀ f ∈ SUB_FIELDS, (getElementById d ("id_" ++ f)).isSome = true ∧
      (findFieldContainer d f).isSome = true)
    (hl : d.hintsAreLeaves = true) :
    ∀ f ∈ SUB_FIELDS, ∃ c i pc pi,
      findFieldContainer (apply d) f = some c ∧
      getElementById (apply d) ("id_" ++ f) = some i ∧
      propsAt (apply d) c = some pc ∧ propsAt (apply d) i = some pi ∧
      (valueOf d ft = some "subscription" → pc.display = "" ∧ pi.disabled = false) ∧
      (valueOf d ft ≠ some "subscription" → pc.display = "none" ∧ pi.disabled = true) := by
  intro f hf
  obtain ⟨hi, hc⟩ := hres f hf
  obtain ⟨i, hi⟩ := Option.isSome_iff_exists.mp hi
  obtain ⟨c, hc⟩ := Option.isSome_iff_exists.mp hc
  obtain ⟨ac, hac⟩ := findFieldContainer_some d f c hc
  obtain ⟨ai, hai, _⟩ := getElementById_some d _ i hi
  have hcos := applyStyle_cosmetic d (valueOf d ft == some "subscription")
  rw [apply_eq_mapProps d ft hft hl]
  refine ⟨c, i, applyStyle d (valueOf d ft == some "subscription") c ac,
    applyStyle d (valueOf d ft == some "subscription") i ai, ?_, ?_, ?_, ?_, ?_, ?_⟩
  · rw [findFieldContainer_mapProps _ hcos, hc]
  · rw [getElementById_mapProps _ hcos, hi]
  · rw [propsAt_mapProps, hac]
    rfl
  · rw [propsAt_mapProps, hai]
    rfl
  · intro hv
    rw [(applyStyle_display d _ c ac).1, (applyStyle_display d _ i ai).2]
    simp [restyle, isSubContainer_of_container d f hf c hc,
      isSubInput_of_input d f hf c i hc hi, hv, displayFor]
  · intro hv
    rw [(applyStyle_display d _ c ac).1, (applyStyle_display d _ i ai).2]
    simp [restyle, isSubContainer_of_container d f hf c hc,
      isSubInput_of_input d f hf c i hc hi, hv, displayFor]

/-- Witness for C5: the fee form with the selector on "subscription", at the
field `grace_days`. -/
theorem apply_fields_witness :
    ∃ c i pc pi,
      findFieldContainer (apply (feeFormPage "subscription" "")) "grace_days" = some c ∧
      getElementById (apply (feeFormPage "subscription" "")) ("id_" ++ "grace_days") = some i ∧
      propsAt (apply (feeFormPage "subscription" "")) c = some pc ∧
      propsAt (apply (feeFormPage "subscription" "")) i = some pi ∧
      (valueOf (feeFormPage "subscription" "") [0, 0, 0, 0] = some "subscription" →
        pc.display = "" ∧ pi.disabled = false) ∧
      (valueOf (feeFormPage "subscription" "") [0, 0, 0, 0] ≠ some "subscription" →
        pc.display = "none" ∧ pi.disabled = true) :=
  apply_fields (feeFormPage "subscription" "") [0, 0, 0, 0]
    (by decide) (by decide) (by decide) "grace_days" (by decide)

/-! ## Part XII. Enabled exactly when not hidden -/

theorem fieldCoherent_styled (d : Forest) (g : Path → Props → Props) (v : Bool) (f : String)
    (hf : f ∈ SUB_FIELDS) (hg : Cosmetic g)
    (hs : ∀ q b, (isSubContainer d q = true → (g q b).display = displayFor v) ∧
      (isSubInput d q = true → (g q b).disabled = !v)) :
    fieldCoherent (d.mapProps g [] 0) f = true := by
  unfold fieldCoherent
  rw [findFieldContainer_mapProps _ hg, getElementById_mapProps _ hg]
  cases hc : findFieldContainer d f with
  | none => rfl
  | some c =>
    cases hi : getElementById d ("id_" ++ f) with
    | none => rfl
    | some i =>
      simp only [propsAt_mapProps]
      cases hpc : propsAt d c with
      | none => rfl
      | some pc =>
        cases hpi : propsAt d i with
        | none => rfl
        | some pi =>
          simp only [Option.map_some']
          rw [(hs c pc).1 (isSubContainer_of_container d f hf c hc),
            (hs i pi).2 (isSubInput_of_input d f hf c i hc hi)]
          cases v <;> decide

theorem fieldCoherent_mapProps (d : Forest) (g : Path → Props → Props) (f : String)
    (hg : Cosmetic g)
    (hs : ∀ q b, (g q b).display = b.display ∧ (g q b).disabled = b.disabled) :
    fieldCoherent (d.mapProps g [] 0) f = fieldCoherent d f := by
  unfold fieldCoherent
  rw [findFieldContainer_mapProps _ hg, getElementById_mapProps _ hg]
  cases hc : findFieldContainer d f with
  | none => rfl
  | some c =>
    cases hi : getElementById d ("id_" ++ f) with
    | none => rfl
    | some i =>
      simp only [propsAt_mapProps]
      cases hpc : propsAt d c with
      | none => rfl
      | some pc =>
        cases hpi : propsAt d i with
        | none => rfl
        | some pi =>
          simp only [Option.map_some', (hs c pc).1, (hs i pi).2]

theorem coherent_selectValue (d : Forest) (v : String) :
    coherent (selectValue d v) = coherent d := by
  obtain ⟨g, hg, hs, he⟩ := selectValue_eq d v
  unfold coherent
  congr 1
  funext f
  rw [he, fieldCoherent_mapProps d g f hg hs]

theorem hintsAreLeaves_selectValue (d : Forest) (v : String) :
    (selectValue d v).hintsAreLeaves = d.hintsAreLeaves := by
  obtain ⟨g, hg, _, he⟩ := selectValue_eq d v
  rw [he, hintsAreLeaves_mapProps_top g hg]

theorem coherent_setSubFieldsVisible (d : Forest) (v : Bool) :
    coherent (setSubFieldsVisible d v) = true := by
  unfold coherent
  rw [List.all_eq_true]
  intro f hf
  rw [setSubFieldsVisible_eq]
  apply fieldCoherent_styled d _ v f hf (restyle_cosmetic _ _ _)
  intro q b
  constructor <;> intro h <;> simp [restyle, h]

theorem coherent_apply_of_selector (d : Forest) (ft : Path)
    (hft : getElementById d "id_fee_type" = some ft) (hl : d.hintsAreLeaves = true) :
    coherent (apply d) = true := by
  unfold coherent
  rw [List.all_eq_true]
  intro f hf
  rw [apply_eq_mapProps d ft hft hl]
  apply fieldCoherent_styled d _ (valueOf d ft == some "subscription") f hf
    (applyStyle_cosmetic _ _)
  intro q b
  rw [(applyStyle_display d _ q b).1, (applyStyle_display d _ q b).2]
  constructor <;> intro h <;> simp [restyle, h]

theorem coherent_apply (d : Forest) (hl : d.hintsAreLeaves = true) (hc : coherent d = true) :
    coherent (apply d) = true := by
  cases hft : getElementById d "id_fee_type" with
  | none =>
    have : apply d = d := by simp [apply, hft]
    rw [this]
    exact hc
  | some ft => exact coherent_apply_of_selector d ft hft hl

theorem hintsAreLeaves_setSubFieldsVisible (d : Forest) (v : Bool) :
    (setSubFieldsVisible d v).hintsAreLeaves = d.hintsAreLeaves := by
  rw [setSubFieldsVisible_eq, hintsAreLeaves_mapProps_top _ (restyle_cosmetic _ _ _)]

theorem hintsAreLeaves_apply (d : Forest) (hl : d.hintsAreLeaves = true) :
    (apply d).hintsAreLeaves = true := by
  cases hft : getElementById d "id_fee_type" with
  | none =>
    have : apply d = d := by simp [apply, hft]
    rw [this]
    exact hl
  | some ft =>
    rw [apply_eq_mapProps d ft hft hl, hintsAreLeaves_mapProps_top _ (applyStyle_cosmetic _ _)]
    exact hl

theorem hintsAreLeaves_ensureHint (d : Forest) (hl : d.hintsAreLeaves = true) :
    (ensureHint d).hintsAreLeaves = true := by
  cases hc : feeTypeContainer d with
  | none =>
    have : ensureHint d = d := by simp [ensureHint, hc]
    rw [this]
    exact hl
  | some c =>
    cases hh : getElementById d "fee_type_hint" with
    | some p =>
      rw [ensureHint_of_hint d p hh]
      exact hl
    | none =>
      rw [ensureHint_new d c hc hh]
      apply hintsAreLeaves_appendAt
      intro e he
      unfold getElementById at hh
      simp only [Option.map_eq_none', List.find?_eq_none, beq_iff_eq] at hh
      exact hh e he

theorem findFieldContainer_appendChild_hint (d : Forest) (c : Path) (a : Props)
    (hc : propsAt d c = some a) (f : String) :
    findFieldContainer (appendChild d c hintElement) f = findFieldContainer d f := by
  unfold findFieldContainer
  have hid : hintElement.id ≠ "id_" ++ f := fun e => id_append_ne_hint f e.symm
  rw [getElementById_appendChild d c hintElement a _ hc hid,
    querySelector_appendChild d c hintElement a _ hc (by simp [Selector.test, hintElement,
      createElement])]
  cases querySelector d (.cls ("field-" ++ f)) with
  | some c2 => rfl
  | none =>
    cases hi : getElementById d ("id_" ++ f) with
    | none => rfl
    | some i =>
      obtain ⟨b, hb, _⟩ := getElementById_some d _ i hi
      simp only [closest_appendChild d c hintElement a _ hc i b hb]

theorem fieldCoherent_ensureHint (d : Forest) (f : String) :
    fieldCoherent (ensureHint d) f = fieldCoherent d f := by
  cases hc : feeTypeContainer d with
  | none =>
    have : ensureHint d = d := by simp [ensureHint, hc]
    rw [this]
  | some c =>
    cases hh : getElementById d "fee_type_hint" with
    | some p => rw [ensureHint_of_hint d p hh]
    | none =>
      obtain ⟨a, ha⟩ := feeTypeContainer_some d c hc
      rw [ensureHint_new d c hc hh]
      unfold fieldCoherent
      rw [findFieldContainer_appendChild_hint d c a ha f,
        getElementById_appendChild d c hintElement a _ ha
          (fun e => id_append_ne_hint f e.symm)]
      cases hfc : findFieldContainer d f with
      | none => rfl
      | some c2 =>
        cases hi : getElementById d ("id_" ++ f) with
        | none => rfl
        | some i =>
          obtain ⟨pc, hpc⟩ := findFieldContainer_some d f c2 hfc
          obtain ⟨pi, hpi, _⟩ := getElementById_some d _ i hi
          simp only [propsAt_appendChild d c hintElement a c2 pc ha hpc,
            propsAt_appendChild d c hintElement a i pi ha hpi, hpc, hpi]

theorem coherent_ensureHint (d : Forest) : coherent (ensureHint d) = coherent d := by
  unfold coherent
  congr 1
  funext f
  exact fieldCoherent_ensureHint d f

theorem coherent_run (op : Op) (hop : op.isSetVisible = false) (d : Forest)
    (hl : d.hintsAreLeaves = true) (hc : coherent d = true) :
    (op.run d).hintsAreLeaves = true ∧ coherent (op.run d) = true := by
  cases op with
  | setVisible f v => simp [Op.isSetVisible] at hop
  | setSubFieldsVisible v =>
    exact ⟨by simpa [Op.run, hintsAreLeaves_setSubFieldsVisible] using hl,
      coherent_setSubFieldsVisible d v⟩
  | ensureHint =>
    exact ⟨hintsAreLeaves_ensureHint d hl, by simpa [Op.run, coherent_ensureHint] using hc⟩
  | apply => exact ⟨hintsAreLeaves_apply d hl, coherent_apply d hl hc⟩
  | load =>
    exact ⟨hintsAreLeaves_apply _ (hintsAreLeaves_ensureHint d hl),
      coherent_apply _ (hintsAreLeaves_ensureHint d hl)
        (by simpa [coherent_ensureHint] using hc)⟩
  | change v =>
    have hl2 : (selectValue d v).hintsAreLeaves = true := by
      rw [hintsAreLeaves_selectValue]
      exact hl
    exact ⟨hintsAreLeaves_apply _ hl2,
      coherent_apply _ hl2 (by rw [coherent_selectValue]; exact hc)⟩

theorem coherent_runAll (ops : List Op) (hops : ∀ op ∈ ops, op.isSetVisible = false)
    (d : Forest) (hl : d.hintsAreLeaves = true) (hc : coherent d = true) :
    coherent (runAll ops d) = true := by
  induction ops generalizing d with
  | nil => exact hc
  | cons op ops ih =>
    obtain ⟨h1, h2⟩ := coherent_run op (hops op (List.mem_cons_self _ _)) d hl hc
    exact ih (fun o ho => hops o (List.mem_cons_of_mem _ ho)) _ h1 h2

/-- C7 as stated fails: two dependent fields share one form group, both are
visible and enabled; a lone `setVisible("duration_months", false)` hides the
shared group and leaves the input of `grace_days` enabled.  And on a page
with unique ids where the element with the id of the hint node wraps the
element of class `field-grace_days` while the input `id_grace_days` is
outside, `apply` hides that wrapper, disables the input and removes the
wrapper with the old content of the hint node; the container of the field
is then the parent of the input, which is visible, and the input is
disabled. -/
theorem setVisible_breaks_coherence :
    (coherent (twoFieldPage "subscription") = true ∧
      fieldCoherent (runAll [Op.setVisible "duration_months" false]
        (twoFieldPage "subscription")) "grace_days" = false ∧
      coherent (runAll [Op.setVisible "duration_months" false] (twoFieldPage "subscription"))
        = false) ∧
    (coherent hintWrapsWrapperPage = true ∧
      coherent (runAll [Op.apply] hintWrapsWrapperPage) = false) := by
  decide

/-- C7, amended: starting from a page where no element with the id of the hint
node has child elements, every sequence of `setSubFieldsVisible`, `apply`,
`ensureHint`, load-time initialisation and change events, without lone
`setVisible` calls, keeps each dependent field's input enabled exactly when
its container is not hidden, provided this held at the start; and it holds
after `setSubFieldsVisible` on any page, and after `apply` and after the
load-time initialisation whenever the discriminator input exists. -/
theorem coherent_preserved (d : Forest) (ops : List Op)
    (hops : ∀ op ∈ ops, op.isSetVisible = false) (hl : d.hintsAreLeaves = true) :
    (coherent d = true → coherent (runAll ops d) = true) ∧
    (∀ v, coherent (setSubFieldsVisible d v) = true) ∧
    ((getElementById d "id_fee_type").isSome = true →
      coherent (apply d) = true ∧ coherent (onDOMContentLoaded d) = true) := by
  refine ⟨coherent_runAll ops hops d hl, coherent_setSubFieldsVisible d, ?_⟩
  intro hft
  obtain ⟨ft, hft⟩ := Option.isSome_iff_exists.mp hft
  refine ⟨coherent_apply_of_selector d ft hft hl, ?_⟩
  have hl2 := hintsAreLeaves_ensureHint d hl
  cases hft2 : getElementById (ensureHint d) "id_fee_type" with
  | some ft2 => exact coherent_apply_of_selector _ ft2 hft2 hl2
  | none =>
    exfalso
    cases hc : feeTypeContainer d with
    | none =>
      have : ensureHint d = d := by simp [ensureHint, hc]
      rw [this, hft] at hft2
      exact absurd hft2 (by simp)
    | some c =>
      cases hh : getElementById d "fee_type_hint" with
      | some p =>
        rw [ensureHint_of_hint d p hh, hft] at hft2
        exact absurd hft2 (by simp)
      | none =>
        obtain ⟨a, ha⟩ := feeTypeContainer_some d c hc
        rw [ensureHint_new d c hc hh,
          getElementById_appendChild d c hintElement a _ ha (by decide), hft] at hft2
        exact absurd hft2 (by simp)

/-- Witness for C7: the fee form, loaded and then switched to "subscription"
and back to "membership". -/
theorem coherent_preserved_witness :
    (coherent (feeFormPage "membership" "") = true →
      coherent (runAll
        [Op.load, Op.change "subscription", Op.setSubFieldsVisible true,
          Op.change "membership"]
        (feeFormPage "membership" "")) = true) ∧
    (∀ v, coherent (setSubFieldsVisible (feeFormPage "membership" "") v) = true) ∧
    ((getElementById (feeFormPage "membership" "") "id_fee_type").isSome = true →
      coherent (apply (feeFormPage "membership" "")) = true ∧
      coherent (onDOMContentLoaded (feeFormPage "membership" "")) = true) :=
  coherent_preserved (feeFormPage "membership" "")
    [Op.load, Op.change "subscription", Op.setSubFieldsVisible true, Op.change "membership"]
    (by decide) (by decide)

end FeeForm

end CampusNexus
